import Mathlib

/-!
Verification of the `derive_rest_api` code generator.

The repository is a Rust proc-macro that turns annotated structs into REST
request builders.  The Lean development below is a shallow embedding of

* the attribute parser (`derive_rest_api_macros/src/request_builder/attributes.rs`),
* the runtime semantics of the generated builder code
  (`derive_rest_api_macros/src/request_builder/builder.rs`), and
* the runtime semantics of the generated HTTP surface
  (`derive_rest_api_macros/src/request_builder/http.rs`,
  `derive_rest_api_macros/src/utils.rs`,
  `derive_rest_api_macros/src/request_builder/utils.rs`),

with the error taxonomy of `derive_rest_api/src/error.rs`.

Field values are modelled by their `Display`/`Serialize` rendering as strings
(`Val`); the external collaborators (serde_qs, serde_json, the HTTP transport)
are modelled as parameters or as the flat-struct serialization the generated
synthetic structs produce.
-/

namespace DeriveRestApi

/-- Runtime rendering of a field value (its `to_string` / serialized form). -/
abbrev Val := String

/-- `derive_rest_api/src/error.rs`: the `RequestError` enum.  Error payloads of
wrapped external errors are modelled as strings. -/
inductive RequestError where
  | missingField (field : String)
  | missingPathParameter (param : String)
  | querySerializationError (source : String)
  | bodySerializationError (source : String)
  | responseDeserializationError (source : String)
  | validationError (field : String) (message : String)
  | missingBaseUrl
  | urlBuildError (source : RequestError)
  | httpError (message : String)
deriving DecidableEq, Repr

/-- Decidable equality of results, for evaluating the model on concrete
inputs. -/
instance {ε α : Type} [DecidableEq ε] [DecidableEq α] :
    DecidableEq (Except ε α) := fun a b =>
  match a, b with
  | .ok x, .ok y =>
    match decEq x y with
    | isTrue h => isTrue (by rw [h])
    | isFalse h => isFalse (by intro hc; cases hc; exact h rfl)
  | .error x, .error y =>
    match decEq x y with
    | isTrue h => isTrue (by rw [h])
    | isFalse h => isFalse (by intro hc; cases hc; exact h rfl)
  | .ok _, .error _ => isFalse (by intro hc; cases hc)
  | .error _, .ok _ => isFalse (by intro hc; cases hc)

/-! ## Attribute parsing (`request_builder/attributes.rs`)

A `#[request_builder(...)]` annotation is a comma-separated list of meta
entries; each entry is a key, optionally followed by `= <literal>`.  `syn`'s
`parse_nested_meta` hands the entries to the callback one at a time, in source
order; an entry whose `= value` part is present but not consumed by the
callback, or absent when the callback demands one (`meta.value()?`), is a parse
error.  We model an entry as its key together with the optional literal value
(the `response` type literal and the `validate` path literal are modelled by
their source text). -/

structure MetaEntry where
  key : String
  value : Option String
deriving DecidableEq, Repr

/-- `attributes.rs` lines 8-23: the struct-level configuration. The `response`
type is modelled by its source text. -/
structure StructAttributes where
  intoFlag : Bool
  defaultFlag : Bool
  method : Option String
  path : Option String
  query_config : Option String
  response : Option String
deriving DecidableEq, Repr

/-- `StructAttributes::default()`. -/
def StructAttributes.init : StructAttributes :=
  ⟨false, false, none, none, none, none⟩

/-- One iteration of the `parse_nested_meta` callback in
`parse_struct_attributes` (`attributes.rs` lines 64-110).  A key that demands a
value (`meta.value()?`) errors when none is present; a bare flag key followed by
`= ...` leaves tokens unconsumed, which `syn` reports as an error. -/
def parseStructStep (acc : StructAttributes) (e : MetaEntry) :
    Except String StructAttributes :=
  if e.key = "into" then
    match e.value with
    | none => .ok { acc with intoFlag := true }
    | some _ => .error "unexpected token"
  else if e.key = "method" then
    match e.value with
    | some v => .ok { acc with method := some v }
    | none => .error "expected value"
  else if e.key = "path" then
    match e.value with
    | some v => .ok { acc with path := some v }
    | none => .error "expected value"
  else if e.key = "response" then
    match e.value with
    | some v => .ok { acc with response := some v }
    | none => .error "expected value"
  else if e.key = "default" then
    match e.value with
    | none => .ok { acc with defaultFlag := true }
    | some _ => .error "unexpected token"
  else if e.key = "query_config" then
    match e.value with
    | some v => .ok { acc with query_config := some v }
    | none => .error "expected value"
  else
    .error "unsupported request_builder attribute"

/-- Folding the callback over the entry list, starting from `acc`. -/
def parseStructFrom (acc : StructAttributes) :
    List MetaEntry → Except String StructAttributes
  | [] => .ok acc
  | e :: rest =>
    match parseStructStep acc e with
    | .ok acc' => parseStructFrom acc' rest
    | .error msg => .error msg

/-- `parse_struct_attributes` (`attributes.rs` lines 56-114). -/
def parse_struct_attributes (es : List MetaEntry) : Except String StructAttributes :=
  parseStructFrom StructAttributes.init es

/-- `attributes.rs` lines 26-38: where a field goes in the request. -/
inductive FieldKind where
  | unspecified
  | path
  | query
  | body
  | header
deriving DecidableEq, Repr

/-- `attributes.rs` lines 41-53: the field-level configuration.  The `validate`
function path is modelled by its source text. -/
structure FieldAttributes where
  intoFlag : Bool
  defaultFlag : Bool
  validate : Option String
  kind : FieldKind
  rename : Option String
deriving DecidableEq, Repr

/-- `FieldAttributes::default()`. -/
def FieldAttributes.init : FieldAttributes :=
  ⟨false, false, none, .unspecified, none⟩

/-- One iteration of the `parse_nested_meta` callback in
`parse_field_attributes` (`attributes.rs` lines 125-187).  Note that `query`,
`body` and `header` all assign the single `kind` slot, and assign `rename` only
when an `= "name"` value is present. -/
def parseFieldStep (acc : FieldAttributes) (e : MetaEntry) :
    Except String FieldAttributes :=
  if e.key = "into" then
    match e.value with
    | none => .ok { acc with intoFlag := true }
    | some _ => .error "unexpected token"
  else if e.key = "path" then
    match e.value with
    | none => .ok { acc with kind := .path }
    | some _ => .error "unexpected token"
  else if e.key = "query" then
    match e.value with
    | none => .ok { acc with kind := .query }
    | some v => .ok { acc with kind := .query, rename := some v }
  else if e.key = "body" then
    match e.value with
    | none => .ok { acc with kind := .body }
    | some v => .ok { acc with kind := .body, rename := some v }
  else if e.key = "header" then
    match e.value with
    | none => .ok { acc with kind := .header }
    | some v => .ok { acc with kind := .header, rename := some v }
  else if e.key = "default" then
    match e.value with
    | none => .ok { acc with defaultFlag := true }
    | some _ => .error "unexpected token"
  else if e.key = "validate" then
    match e.value with
    | some v => .ok { acc with validate := some v }
    | none => .error "expected value"
  else
    .error "unsupported field-level request_builder attribute"

/-- Folding the callback over the entry list, starting from `acc`. -/
def parseFieldFrom (acc : FieldAttributes) :
    List MetaEntry → Except String FieldAttributes
  | [] => .ok acc
  | e :: rest =>
    match parseFieldStep acc e with
    | .ok acc' => parseFieldFrom acc' rest
    | .error msg => .error msg

/-- `parse_field_attributes` (`attributes.rs` lines 117-191). -/
def parse_field_attributes (es : List MetaEntry) : Except String FieldAttributes :=
  parseFieldFrom FieldAttributes.init es

/-- Every call site of `parse_field_attributes` in the generator
(`builder.rs` lines 46 and 108, `http.rs` lines 23, 29, 35 and 232) discards a
parse error with `unwrap_or_default()` (respectively `unwrap_or(false)` after a
`map`), so the generator effectively uses this total function. -/
def effectiveFieldAttrs (es : List MetaEntry) : FieldAttributes :=
  match parse_field_attributes es with
  | .ok a => a
  | .error _ => FieldAttributes.init

/-- `request_builder/mod.rs` lines 29-35 propagate a struct-level attribute
parse error with `?` (aborting generation with a compile error), while the
field-level attribute lists are only ever read through `effectiveFieldAttrs`;
generation never aborts because of a field-level attribute list. -/
def generationOutcome (structEs : List MetaEntry) (fieldEss : List (List MetaEntry)) :
    Except String (StructAttributes × List FieldAttributes) :=
  match parse_struct_attributes structEs with
  | .ok sa => .ok (sa, fieldEss.map effectiveFieldAttrs)
  | .error msg => .error msg

/-- The struct-level keys `parse_struct_attributes` recognizes. -/
def structKnownKeys : List String :=
  ["into", "method", "path", "response", "default", "query_config"]

/-- The field-level keys `parse_field_attributes` recognizes. -/
def fieldKnownKeys : List String :=
  ["into", "path", "query", "body", "header", "default", "validate"]

/-- The field-level keys that assign the `kind` slot. -/
def isRoleKey (k : String) : Bool :=
  k = "path" || k = "query" || k = "body" || k = "header"

/-- The `kind` a role key assigns. -/
def roleKind (k : String) : FieldKind :=
  if k = "path" then .path
  else if k = "query" then .query
  else if k = "body" then .body
  else if k = "header" then .header
  else .unspecified

/-- A struct-level entry the parser accepts: a bare flag key, or a
value-demanding key with its value. -/
def structEntryWF (e : MetaEntry) : Bool :=
  ((e.key = "into" || e.key = "default") && e.value.isNone) ||
  ((e.key = "method" || e.key = "path" || e.key = "response" ||
      e.key = "query_config") && e.value.isSome)

/-- A field-level entry the parser accepts: a bare flag key (`into`, `path`,
`default`), a role key with or without a rename value (`query`, `body`,
`header`), or `validate` with its value. -/
def fieldEntryWF (e : MetaEntry) : Bool :=
  ((e.key = "into" || e.key = "path" || e.key = "default") && e.value.isNone) ||
  (e.key = "query" || e.key = "body" || e.key = "header") ||
  (e.key = "validate" && e.value.isSome)

/-- The value held after folding the entries over an assign-on-key step:
the last `k`-keyed entry's value, or `init` when there is none. -/
def lastValueFrom (k : String) (init : Option String) (es : List MetaEntry) :
    Option String :=
  es.foldl (fun acc e => if e.key = k then e.value else acc) init

/-- The configuration `parseStructFrom acc` computes on well-formed entries,
written componentwise: flags are or-accumulated, valued keys keep the
last-seen value. -/
def structCanonFrom (acc : StructAttributes) (es : List MetaEntry) :
    StructAttributes :=
  { intoFlag := acc.intoFlag || es.any (fun e => e.key = "into")
    defaultFlag := acc.defaultFlag || es.any (fun e => e.key = "default")
    method := lastValueFrom "method" acc.method es
    path := lastValueFrom "path" acc.path es
    query_config := lastValueFrom "query_config" acc.query_config es
    response := lastValueFrom "response" acc.response es }

/-- The `kind` slot after folding the entries: the last role key wins. -/
def lastKindFrom (init : FieldKind) (es : List MetaEntry) : FieldKind :=
  es.foldl (fun acc e => if isRoleKey e.key then roleKind e.key else acc) init

/-- The `rename` slot after folding the entries: the last role key carrying a
value wins; a role key without a value leaves the slot alone. -/
def lastRenameFrom (init : Option String) (es : List MetaEntry) : Option String :=
  es.foldl
    (fun acc e => if isRoleKey e.key && e.value.isSome then e.value else acc) init

/-- The configuration `parseFieldFrom acc` computes on well-formed entries,
written componentwise. -/
def fieldCanonFrom (acc : FieldAttributes) (es : List MetaEntry) :
    FieldAttributes :=
  { intoFlag := acc.intoFlag || es.any (fun e => e.key = "into")
    defaultFlag := acc.defaultFlag || es.any (fun e => e.key = "default")
    validate := lastValueFrom "validate" acc.validate es
    kind := lastKindFrom acc.kind es
    rename := lastRenameFrom acc.rename es }

/-- The configuration slot a struct-level valued key assigns. -/
def structValueComp (k : String) (sa : StructAttributes) : Option String :=
  if k = "method" then sa.method
  else if k = "path" then sa.path
  else if k = "query_config" then sa.query_config
  else if k = "response" then sa.response
  else none

/-! ## The generated builder's `build()` (`request_builder/builder.rs`)

The generator emits, per source field in declaration order, an extraction
statement followed by an optional validation statement, each of which can
return early with `?`.  We model the emitted runtime behavior: a field is
described by a `FieldSpec` (what the generator read off the source field), the
builder slot holds `Option Val` (`None` = setter never called), and processing
a field yields the built field value or the first `RequestError`. -/

/-- `builder.rs`: the `DefaultBehavior` enum used by `generate_field_processing`
(`Required` / `UseDefault` / `Custom(expr)`); the custom expression is modelled
by the value it evaluates to. -/
inductive DefaultBehavior where
  | required
  | useDefault
  | custom (expr : Val)
deriving DecidableEq, Repr

/-- Where the field is placed in the request (`FieldKind` with `Unspecified`
collapsed into the same enum; see `attributes.rs`). -/
abbrev FieldRole := FieldKind

/-- Everything the generator reads off one source field: its name, whether its
declared type is `Option<_>` (`option_inner_type`), its role, the
header/query/body rename, its default behavior, the value `Default::default()`
produces for its type, and its validator (a Rust `fn(&T) -> Result<(), E>`,
modelled on rendered values). -/
structure FieldSpec where
  name : String
  isOption : Bool
  role : FieldRole
  rename : Option String
  fieldDefault : DefaultBehavior
  defaultVal : Val
  validate : Option (Val → Except String Unit)

/-- A built field value: `req v` for a field whose declared type is not
`Option` (the struct holds a concrete value), `opt o` for an `Option`-typed
field. -/
inductive FieldVal where
  | req (v : Val)
  | opt (o : Option Val)
deriving DecidableEq, Repr

/-- A field of the built request struct: its generation-time description
together with the value `build()` put there. -/
structure BuiltField where
  spec : FieldSpec
  val : FieldVal

/-- `builder.rs` lines 111-122: struct-level `default` turns a `Required`
field into `UseDefault`; a field-level behavior other than `Required` wins. -/
def effectiveDefault (structDefault : Bool) : DefaultBehavior → DefaultBehavior
  | .required => if structDefault then .useDefault else .required
  | b => b

/-- `generate_field_processing` (`builder.rs` lines 97-179), for one field:
extraction (lines 127-153) then validation (lines 156-172).  An `Option`-typed
field passes its slot through unchanged and is validated only when `Some`;
otherwise the effective default behavior decides between requiring the slot
(`missing_field`), `unwrap_or_default()`, and `unwrap_or_else(|| expr)`. -/
def processField (structDefault : Bool) (fs : FieldSpec) (slot : Option Val) :
    Except RequestError FieldVal :=
  if fs.isOption then
    match fs.validate with
    | some f =>
      match slot with
      | some v =>
        match f v with
        | .ok _ => .ok (.opt slot)
        | .error msg => .error (.validationError fs.name msg)
      | none => .ok (.opt slot)
    | none => .ok (.opt slot)
  else
    match
      (match effectiveDefault structDefault fs.fieldDefault with
       | .required =>
         match slot with
         | some v => Except.ok v
         | none => Except.error (RequestError.missingField fs.name)
       | .useDefault => Except.ok (slot.getD fs.defaultVal)
       | .custom expr => Except.ok (slot.getD expr)) with
    | .error e => .error e
    | .ok v =>
      match fs.validate with
      | some f =>
        match f v with
        | .ok _ => .ok (.req v)
        | .error msg => .error (.validationError fs.name msg)
      | none => .ok (.req v)

/-- The body of the generated `build()` (`mod.rs` lines 166-174): process the
fields in declaration order, stopping at the first failure, then construct the
struct from the extracted temporaries. -/
def buildFields (structDefault : Bool) :
    List (FieldSpec × Option Val) → Except RequestError (List BuiltField)
  | [] => .ok []
  | (fs, slot) :: rest =>
    match processField structDefault fs slot with
    | .ok v =>
      match buildFields structDefault rest with
      | .ok bfs => .ok (⟨fs, v⟩ :: bfs)
      | .error e => .error e
    | .error e => .error e

/-! ## The generated HTTP surface (`request_builder/http.rs`) -/

/-- `request_builder/utils.rs` lines 13-34 (`extract_path_params`), on the
template's character list, written as a one-character-at-a-time scanner so the
recursion is structural: outside a parameter (`state = none`) a `'{'` opens
one; inside a parameter (`state = some collected`) a `'}'` closes it, the
collected name being recorded when non-empty, and any other character —
including a further `'{'`, exactly as in the Rust loop — is collected.  A
parameter still open at the end of the string is recorded when non-empty, as
the Rust loop does. -/
def extractParamsLoop : Option (List Char) → List Char → List String
  | none, [] => []
  | some acc, [] => if acc.isEmpty then [] else [String.mk acc.reverse]
  | none, c :: rest =>
    if c = '{' then extractParamsLoop (some []) rest
    else extractParamsLoop none rest
  | some acc, c :: rest =>
    if c = '}' then
      if acc.isEmpty then extractParamsLoop none rest
      else String.mk acc.reverse :: extractParamsLoop none rest
    else extractParamsLoop (some (c :: acc)) rest

/-- `extract_path_params` on a template string. -/
def extract_path_params (path : String) : List String :=
  extractParamsLoop none path.data

/-- Rust's `str::replace` on character lists: scan left to right, replace each
non-overlapping occurrence of `pat`, advancing one character when there is no
match at the current position.  The `Nat` argument is recursion fuel, at least
the list length at every call from `listReplace`, so the `0` branch is never
taken there. -/
def replaceFuel (pat repl : List Char) : Nat → List Char → List Char
  | _, [] => []
  | 0, l => l
  | fuel + 1, c :: rest =>
    if pat ≠ [] ∧ pat.isPrefixOf (c :: rest) then
      repl ++ replaceFuel pat repl fuel ((c :: rest).drop pat.length)
    else
      c :: replaceFuel pat repl fuel rest

/-- `str::replace` on character lists.  The patterns used by the generated
code are `\x7bname\x7d` placeholders and therefore never empty; the empty
pattern is mapped to the identity. -/
def listReplace (l pat repl : List Char) : List Char :=
  if pat = [] then l else replaceFuel pat repl l.length l

/-- `str::replace` on strings. -/
def strReplace (s pat repl : String) : String :=
  String.mk (listReplace s.data pat.data repl.data)

/-- The `\x7bname\x7d` placeholder text for a parameter. -/
def placeholder (param : String) : String :=
  "\x7b" ++ param ++ "\x7d"

/-- One replacement statement from `generate_path_replacements` (`http.rs`
lines 73-105): find the field literally named like the parameter; an
`Option`-typed field whose value is `None` raises `missing_path_parameter`,
otherwise the placeholder is replaced (everywhere, `str::replace`) by the
value's `to_string`.  An unmatched parameter makes the generator emit
`compile_error!` — that generated code never runs, so the `none` branch below
is unreachable at runtime; we let it share the `missing_path_parameter` shape.
-/
def applyPathRep (req : List BuiltField) (path : String) (param : String) :
    Except RequestError String :=
  match req.find? (fun bf => bf.spec.name = param) with
  | some bf =>
    match bf.val with
    | .req v => .ok (strReplace path (placeholder param) v)
    | .opt (some v) => .ok (strReplace path (placeholder param) v)
    | .opt none => .error (.missingPathParameter param)
  | none => .error (.missingPathParameter param)

/-- The value a path replacement can read off a built field: the concrete
value of a non-`Option` field, or the present value of an `Option` one. -/
def presentVal : FieldVal → Option Val
  | .req v => some v
  | .opt o => o

/-- The sequence of replacement statements in the generated `build_url`
(`http.rs` line 55), one per extracted parameter, each able to return early. -/
def substPathParams (req : List BuiltField) : String → List String →
    Except RequestError String
  | path, [] => .ok path
  | path, p :: ps =>
    match applyPathRep req path p with
    | .ok path' => substPathParams req path' ps
    | .error e => .error e

/-- The key/value pairs the synthetic `QueryParams` / `BodyParams` struct
serializes: fields whose declared type is `Option` carry
`#[serde(skip_serializing_if = "Option::is_none")]` (`http.rs` lines 121-125
and 183-187), so a `None` value contributes nothing; every other field
contributes its name and rendered value.  (serde renames copied from the
source field's own `#[serde(...)]` attributes are outside this model.) -/
def serializePairs (fields : List BuiltField) : List (String × Val) :=
  fields.filterMap (fun bf =>
    match bf.val with
    | .req v => some (bf.spec.name, v)
    | .opt (some v) => some (bf.spec.name, v)
    | .opt none => none)

/-- The query-role fields of the request, in declaration order (`http.rs`
lines 22-26). -/
def queryFields (req : List BuiltField) : List BuiltField :=
  req.filter (fun bf => bf.spec.role = .query)

/-- The body-role fields of the request, in declaration order (`http.rs`
lines 28-32). -/
def bodyFields (req : List BuiltField) : List BuiltField :=
  req.filter (fun bf => bf.spec.role = .body)

/-- The header-role fields of the request, in declaration order (`http.rs`
lines 34-38). -/
def headerFields (req : List BuiltField) : List BuiltField :=
  req.filter (fun bf => bf.spec.role = .header)

/-- A query-string encoder: the configured `serde_qs` `Config` (the default
`serde_qs::Config::new()` or the `query_config` expression), applied to the
pairs the synthetic struct serializes.  It is an external collaborator, so the
generated-code semantics is parameterized over it. -/
abbrev QsEncoder := List (String × Val) → Except String String

/-- The generated `build_url` (`http.rs` lines 46-58 with the query section of
lines 108-165): start from the literal template, run the path replacements,
then — only when there is at least one query-role field — serialize the
synthetic query struct with the configured encoder (wrapping a failure in
`QuerySerializationError`) and append `?` followed by the result when it is
non-empty. -/
def build_url (template : String) (req : List BuiltField) (enc : QsEncoder) :
    Except RequestError String :=
  match substPathParams req template (extract_path_params template) with
  | .error e => .error e
  | .ok path =>
    if (queryFields req).isEmpty then .ok path
    else
      match enc (serializePairs (queryFields req)) with
      | .error msg => .error (.querySerializationError msg)
      | .ok qs => .ok (if qs.isEmpty then path else path ++ "?" ++ qs)

/-- The JSON document `serde_json::to_vec` produces for the synthetic
`BodyParams` struct: a single object whose entries are the non-skipped fields
in order; `Val` is the field value's JSON rendering. -/
def jsonObject (pairs : List (String × Val)) : String :=
  "\x7b" ++ String.intercalate "," (pairs.map (fun p => "\"" ++ p.1 ++ "\":" ++ p.2)) ++ "\x7d"

/-- The generated `build_body` (`http.rs` lines 168-223): with zero body-role
fields it is the constant `Ok(None)`; otherwise it serializes the synthetic
struct (a `None`-valued `Option` field is skipped) and returns `Ok(Some bytes)`.
-/
def build_body (req : List BuiltField) : Except RequestError (Option String) :=
  if (bodyFields req).isEmpty then .ok none
  else .ok (some (jsonObject (serializePairs (bodyFields req))))

/-- Rust's `str::split(sep)` on a character list: the separator-delimited
words, one more than the number of separators (so the empty string yields one
empty word, exactly as in Rust). -/
def splitOnChar (sep : Char) : List Char → List (List Char)
  | [] => [[]]
  | c :: rest =>
    if c = sep then [] :: splitOnChar sep rest
    else
      match splitOnChar sep rest with
      | [] => [[c]]
      | w :: ws => (c :: w) :: ws

/-- One word of `snake_to_title_case` (`utils.rs` lines 82-90): first
character uppercased, the rest lowercased (ASCII case mapping; the field
identifiers this runs on are ASCII). -/
def titleWord (w : List Char) : String :=
  match w with
  | [] => ""
  | c :: cs => String.mk (c.toUpper :: cs.map Char.toLower)

/-- `snake_to_title_case` (`utils.rs` lines 80-93): split on `'_'`, Title-Case
each word, join with `'-'`. -/
def snake_to_title_case (s : String) : String :=
  String.intercalate "-" ((splitOnChar '_' s.data).map titleWord)

/-- The header key used for a header-role field (`http.rs` lines 232-234):
the explicit rename when present, else the Title-Case conversion of the field
name. -/
def headerKey (fs : FieldSpec) : String :=
  match fs.rename with
  | some r => r
  | none => snake_to_title_case fs.name

/-- A string-keyed map, modelling `std::collections::HashMap` through its
insertion history; `mapInsert` overwrites the value under an existing key. -/
def mapInsert (m : List (String × Val)) (k : String) (v : Val) :
    List (String × Val) :=
  if m.any (fun p => p.1 = k) then
    m.map (fun p => if p.1 = k then (k, v) else p)
  else m ++ [(k, v)]

/-- `HashMap` lookup on the model. -/
def mapGet (m : List (String × Val)) (k : String) : Option Val :=
  (m.find? (fun p => p.1 = k)).map (fun p => p.2)

/-- `HashMap::extend`: insert every entry of `other` into `m`, overwriting on
key collision. -/
def extendMap (m other : List (String × Val)) : List (String × Val) :=
  other.foldl (fun acc p => mapInsert acc p.1 p.2) m

/-- The generated `build_headers` (`http.rs` lines 226-257): start from an
empty map and, for each header-role field in declaration order, insert its
rendered value under `headerKey`; an `Option`-typed field inserts only when
`Some`. -/
def build_headers (req : List BuiltField) : List (String × Val) :=
  (headerFields req).foldl
    (fun m bf =>
      match bf.val with
      | .req v => mapInsert m (headerKey bf.spec) v
      | .opt (some v) => mapInsert m (headerKey bf.spec) v
      | .opt none => m)
    []

/-! ## The send paths (`builder.rs` lines 196-288, `http.rs` lines 261-289)

The transport client is an external collaborator; what the generated code is
responsible for is the argument list it hands to the client's `send` /
`send_async` capability.  We record that call.  The `HttpClient` /
`AsyncHttpClient` traits (`derive_rest_api/src/traits.rs`) declare
`send(method, url, headers, body, timeout)`; `timeoutArg = some t` records
that a timeout argument with value `t` was supplied, while `timeoutArg = none`
records a call made without any timeout argument. -/

/-- The argument list handed to the transport client.  Durations are modelled
as naturals (milliseconds). -/
structure SendCall where
  method : String
  url : String
  headers : List (String × Val)
  body : Option String
  timeoutArg : Option (Option Nat)
deriving DecidableEq, Repr

/-- The builder's extra slots (`mod.rs` lines 89-96): the embedded clients
(modelled by presence), the base URL, the dynamic header map added through
`RequestModifier::header`, and the timeout set through
`RequestModifier::timeout`. -/
structure BuilderExtras where
  hasHttpClient : Bool
  hasAsyncHttpClient : Bool
  baseUrl : Option String
  dynamicHeaders : List (String × Val)
  timeout : Option Nat

/-- `struct_attrs.method.as_ref().map(...).unwrap_or("GET")` (`builder.rs`
line 201, `http.rs` line 262). -/
def methodValue (m : Option String) : String :=
  match m with
  | some s => s
  | none => "GET"

/-- The generated builder `send()` (`builder.rs` lines 226-248): require the
embedded blocking client, require the base URL, take the timeout and dynamic
headers, `build()` the request, build the URL (wrapping its error in
`UrlBuildError`), prepend the base URL, extend the field-derived headers with
the dynamic headers, build the body, and call
`client.send(method, &url, headers, body, timeout)`. -/
def builderSend (sd : Bool) (method : Option String) (template : String)
    (enc : QsEncoder) (ex : BuilderExtras) (slots : List (FieldSpec × Option Val)) :
    Except RequestError SendCall :=
  if ex.hasHttpClient = false then .error (.missingField "http_client")
  else
    match ex.baseUrl with
    | none => .error .missingBaseUrl
    | some base =>
      match buildFields sd slots with
      | .error e => .error e
      | .ok req =>
        match build_url template req enc with
        | .error e => .error (.urlBuildError e)
        | .ok path =>
          match build_body req with
          | .error e => .error e
          | .ok body =>
            .ok { method := methodValue method
                  url := base ++ path
                  headers := extendMap (build_headers req) ex.dynamicHeaders
                  body := body
                  timeoutArg := some ex.timeout }

/-- The generated builder `send_async()` (`builder.rs` lines 263-286): the
same steps against the embedded async client, awaiting
`client.send_async(method, &url, headers, body, timeout)`. -/
def builderSendAsync (sd : Bool) (method : Option String) (template : String)
    (enc : QsEncoder) (ex : BuilderExtras) (slots : List (FieldSpec × Option Val)) :
    Except RequestError SendCall :=
  if ex.hasAsyncHttpClient = false then .error (.missingField "async_http_client")
  else
    match ex.baseUrl with
    | none => .error .missingBaseUrl
    | some base =>
      match buildFields sd slots with
      | .error e => .error e
      | .ok req =>
        match build_url template req enc with
        | .error e => .error (.urlBuildError e)
        | .ok path =>
          match build_body req with
          | .error e => .error e
          | .ok body =>
            .ok { method := methodValue method
                  url := base ++ path
                  headers := extendMap (build_headers req) ex.dynamicHeaders
                  body := body
                  timeoutArg := some ex.timeout }

/-- The generated `send_with_client` on the request struct (`http.rs`
lines 275-287): build the URL (wrapping its error in `UrlBuildError`), prepend
the base URL, take the field-derived headers and the body, and call
`client.send(#method_value, &url, headers, body)` — the generated call passes
four arguments and no timeout at all (`timeoutArg := none`). -/
def send_with_client (method : Option String) (template : String)
    (enc : QsEncoder) (req : List BuiltField) (base : String) :
    Except RequestError SendCall :=
  match build_url template req enc with
  | .error e => .error (.urlBuildError e)
  | .ok path =>
    match build_body req with
    | .error e => .error e
    | .ok body =>
      .ok { method := methodValue method
            url := base ++ path
            headers := build_headers req
            body := body
            timeoutArg := none }

/-! ## Concrete instances used to evaluate the model -/

/-- Model of the default `serde_qs::Config::new()` encoder on flat
string-rendered pairs: `name=value` joined by `&`. -/
def qsDefault : QsEncoder :=
  fun ps => .ok (String.intercalate "&" (ps.map (fun p => p.1 ++ "=" ++ p.2)))

/-- A validator rejecting the rendered value `"bad"` with message
`"too bad"`. -/
def validateNotBad : Val → Except String Unit :=
  fun v => if v = "bad" then .error "too bad" else .ok ()

/-- `id: u64` with `#[request_builder(path)]`. -/
def fieldId : FieldSpec := ⟨"id", false, .path, none, .required, "", none⟩

/-- A plain required field `a`. -/
def fieldA : FieldSpec := ⟨"a", false, .unspecified, none, .required, "", none⟩

/-- A required field `b` with a validator. -/
def fieldB : FieldSpec :=
  ⟨"b", false, .unspecified, none, .required, "", some validateNotBad⟩

/-- An `Option`-typed field `c` with a validator. -/
def fieldC : FieldSpec :=
  ⟨"c", true, .unspecified, none, .required, "", some validateNotBad⟩

/-- `page: Option<u32>` with `#[request_builder(query)]`. -/
def fieldPage : FieldSpec := ⟨"page", true, .query, none, .required, "", none⟩

/-- `limit: Option<u32>` with `#[request_builder(query)]`. -/
def fieldLimit : FieldSpec := ⟨"limit", true, .query, none, .required, "", none⟩

/-- `note: Option<String>` with `#[request_builder(body)]`. -/
def fieldNote : FieldSpec := ⟨"note", true, .body, none, .required, "", none⟩

/-- `x_api_key: String` with `#[request_builder(header)]`. -/
def fieldApiKey : FieldSpec := ⟨"x_api_key", false, .header, none, .required, "", none⟩

/-- `auth: String` with `#[request_builder(header = "X-Custom-Auth")]`. -/
def fieldAuth : FieldSpec :=
  ⟨"auth", false, .header, some "X-Custom-Auth", .required, "", none⟩

/-- `oid: Option<u64>` with `#[request_builder(path)]`. -/
def fieldOid : FieldSpec := ⟨"oid", true, .path, none, .required, "", none⟩

/-- A built request with `page = Some 2` and `limit = None`, both query
fields. -/
def reqQ : List BuiltField :=
  [⟨fieldPage, .opt (some "2")⟩, ⟨fieldLimit, .opt none⟩]

/-- A built request whose only body field `note` is `None`. -/
def reqB : List BuiltField := [⟨fieldNote, .opt none⟩]

/-- Builder slots setting the single header field `x_api_key` to `"k1"`. -/
def slotsH : List (FieldSpec × Option Val) := [(fieldApiKey, some "k1")]

/-- The request `build()` produces from `slotsH`. -/
def reqH : List BuiltField := [⟨fieldApiKey, .req "k1"⟩]

/-- Builder extras: both clients embedded, base URL `https://api`, dynamic
headers `X-Trace: 1` and `X-Api-Key: dyn` (the latter colliding with the
field-derived header), timeout 30. -/
def exSend : BuilderExtras :=
  ⟨true, true, some "https://api", [("X-Trace", "1"), ("X-Api-Key", "dyn")], some 30⟩

/-- The transport call `builderSend` makes from `exSend` and `slotsH`. -/
def callH : SendCall :=
  ⟨"GET", "https://api/items", [("X-Api-Key", "dyn"), ("X-Trace", "1")], none,
    some (some 30)⟩

/-!
# Theorems
-/

/-! ### Shared lemmas about `build()` -/

/-- An `Option`-typed field passes its slot through unchanged or raises a
validation error naming the field; it can never raise anything else. -/
theorem processField_option (sd : Bool) (fs : FieldSpec) (slot : Option Val)
    (hOpt : fs.isOption = true) :
    processField sd fs slot = .ok (.opt slot) ∨
      ∃ msg, processField sd fs slot = .error (.validationError fs.name msg) := by
  unfold processField
  rw [hOpt]
  simp only [if_true]
  cases hv : fs.validate with
  | none => exact Or.inl rfl
  | some f =>
    cases slot with
    | none => exact Or.inl rfl
    | some v =>
      cases hfv : f v with
      | ok u => exact Or.inl (by simp only [hfv])
      | error msg => exact Or.inr ⟨msg, by simp only [hfv]⟩

/-- A non-`Option` field whose effective default behavior is `UseDefault`
substitutes `Default::default()` when the slot is unset. -/
theorem processField_default (sd : Bool) (fs : FieldSpec)
    (hOpt : fs.isOption = false) (hval : fs.validate = none)
    (hdef : fs.fieldDefault = .useDefault ∨ (fs.fieldDefault = .required ∧ sd = true)) :
    processField sd fs none = .ok (.req fs.defaultVal) := by
  unfold processField
  rw [hOpt]
  have heff : effectiveDefault sd fs.fieldDefault = .useDefault := by
    rcases hdef with h | ⟨h1, h2⟩
    · rw [h]; rfl
    · rw [h1, h2]; rfl
  simp only [Bool.false_eq_true, if_false, heff, Option.getD_none, hval]

/-- A non-`Option` field that stays `Required` raises `missing_field` naming
the field when the slot is unset. -/
theorem processField_missing (sd : Bool) (fs : FieldSpec)
    (hOpt : fs.isOption = false) (hdef : fs.fieldDefault = .required)
    (hsd : sd = false) :
    processField sd fs none = .error (.missingField fs.name) := by
  unfold processField
  rw [hOpt]
  have heff : effectiveDefault sd fs.fieldDefault = .required := by
    rw [hdef, hsd]; rfl
  simp only [Bool.false_eq_true, if_false, heff]

/-- Processing a prefix of fields that all succeed leaves the error of the
remaining fields unchanged: `build()` checks fields in declaration order. -/
theorem buildFields_append_error (sd : Bool) (e : RequestError) :
    ∀ (pre l : List (FieldSpec × Option Val)),
      (∀ p ∈ pre, ∃ v, processField sd p.1 p.2 = Except.ok v) →
      buildFields sd l = .error e →
      buildFields sd (pre ++ l) = .error e
  | [], l, _, hl => by simpa using hl
  | (fs, slot) :: pre, l, hpre, hl => by
    obtain ⟨v, hv⟩ := hpre (fs, slot) (List.mem_cons_self _ _)
    have ih := buildFields_append_error sd e pre l
      (fun p hp => hpre p (List.mem_cons_of_mem _ hp)) hl
    have happ : pre.append l = pre ++ l := rfl
    simp only [List.cons_append, buildFields, hv, happ, ih]

/-- A failing head field makes `build()` fail with exactly its error. -/
theorem buildFields_cons_error (sd : Bool) (fs : FieldSpec) (slot : Option Val)
    (rest : List (FieldSpec × Option Val)) (e : RequestError)
    (h : processField sd fs slot = .error e) :
    buildFields sd ((fs, slot) :: rest) = .error e := by
  simp only [buildFields, h]

/-! ### C1 -/

/-- C1: in the generated `build()`, an `Option`-typed field's slot is passed
through as-is and can never cause a missing-field error; a non-`Option` field
whose effective default behavior is `UseDefault` (struct-level or field-level
`default` attribute) receives `Default::default()` when unset; and a
non-`Option` field with no default fallback that is left unset makes `build()`
return a missing-field error naming exactly that field, whatever fields follow
it, provided the fields before it process successfully. -/
theorem build_processes_fields_as_specified (sd : Bool) (fs : FieldSpec)
    (slot : Option Val) (pre rest : List (FieldSpec × Option Val))
    (hpre : ∀ p ∈ pre, ∃ v, processField sd p.1 p.2 = Except.ok v) :
    (fs.isOption = true →
      (processField sd fs slot = .ok (.opt slot) ∨
        ∃ msg, processField sd fs slot = .error (.validationError fs.name msg)) ∧
      ∀ name, processField sd fs slot ≠ .error (.missingField name)) ∧
    (fs.isOption = false → fs.validate = none → slot = none →
      (fs.fieldDefault = .useDefault ∨ (fs.fieldDefault = .required ∧ sd = true)) →
      processField sd fs slot = .ok (.req fs.defaultVal)) ∧
    (fs.isOption = false → fs.fieldDefault = .required → sd = false → slot = none →
      buildFields sd (pre ++ (fs, slot) :: rest) = .error (.missingField fs.name)) := by
  refine ⟨fun hOpt => ?_, fun hOpt hval hslot hdef => ?_, fun hOpt hdef hsd hslot => ?_⟩
  · refine ⟨processField_option sd fs slot hOpt, fun name hc => ?_⟩
    rcases processField_option sd fs slot hOpt with h | ⟨msg, h⟩ <;>
      rw [h] at hc <;> cases hc
  · subst hslot
    exact processField_default sd fs hOpt hval hdef
  · subst hslot
    exact buildFields_append_error sd _ pre _ hpre
      (buildFields_cons_error sd fs none rest _
        (processField_missing sd fs hOpt hdef hsd))

/-- C1 witness: a struct with fields `a` (set) and `id` (required, unset)
fails with `missing_field("id")`. -/
theorem build_processes_fields_as_specified_witness :
    buildFields false [(fieldA, some "va"), (fieldId, none), (fieldB, some "x")] =
      .error (.missingField "id") :=
  (build_processes_fields_as_specified false fieldId none
      [(fieldA, some "va")] [(fieldB, some "x")]
      (by
        intro p hp
        simp only [List.mem_singleton] at hp
        subst hp
        exact ⟨.req "va", rfl⟩)).2.2 rfl rfl rfl rfl

/-! ### C2 -/

/-- C2: `build()` returns the error of the first failing field in declaration
order — whatever fields follow it, so no later field's extraction or validator
can influence the result; an `Option`-typed field's validator is invoked only
when the value is present (an unset optional field always passes), and a
validator failure is reported as a validation error naming the field and the
validator's message. -/
theorem build_stops_at_first_failure (sd : Bool) (fs : FieldSpec)
    (slot : Option Val) (pre rest : List (FieldSpec × Option Val))
    (e : RequestError) :
    ((∀ p ∈ pre, ∃ v, processField sd p.1 p.2 = Except.ok v) →
      processField sd fs slot = .error e →
      buildFields sd (pre ++ (fs, slot) :: rest) = .error e) ∧
    (fs.isOption = true → slot = none →
      processField sd fs slot = .ok (.opt none)) ∧
    (∀ f v msg, fs.isOption = true → fs.validate = some f → slot = some v →
      f v = .error msg →
      processField sd fs slot = .error (.validationError fs.name msg)) := by
  refine ⟨fun hpre hfail => ?_, fun hOpt hslot => ?_, fun f v msg hOpt hval hslot hfv => ?_⟩
  · exact buildFields_append_error sd e pre _ hpre
      (buildFields_cons_error sd fs slot rest e hfail)
  · subst hslot
    unfold processField
    rw [hOpt]
    simp only [if_true]
    cases hv : fs.validate <;> rfl
  · subst hslot
    unfold processField
    rw [hOpt]
    simp only [if_true, hval, hfv]

/-- C2 witness: with field `b`'s validator failing on `"bad"` and a later
required field `a` also unset, `build()` reports `b`'s validation error. -/
theorem build_stops_at_first_failure_witness :
    buildFields false [(fieldC, some "ok"), (fieldB, some "bad"), (fieldA, none)] =
      .error (.validationError "b" "too bad") :=
  (build_stops_at_first_failure false fieldB (some "bad")
      [(fieldC, some "ok")] [(fieldA, none)] _).1
    (by
      intro p hp
      simp only [List.mem_singleton] at hp
      subst hp
      exact ⟨.opt (some "ok"), rfl⟩)
    rfl

/-! ### Shared lemmas about `build_url` -/

/-- When every parameter of the list resolves to a present value, the
replacement statements succeed and produce the left-to-right fold of
`str::replace` over the parameters. -/
theorem substPathParams_ok (req : List BuiltField) (f : String → Val) :
    ∀ (params : List String) (path : String),
      (∀ p ∈ params, ∃ bf, req.find? (fun b => b.spec.name = p) = some bf ∧
          presentVal bf.val = some (f p)) →
      substPathParams req path params =
        .ok (params.foldl (fun pth p => strReplace pth (placeholder p) (f p)) path)
  | [], _, _ => rfl
  | p :: ps, path, h => by
    obtain ⟨bf, hfind, hval⟩ := h p (List.mem_cons_self _ _)
    have ih := substPathParams_ok req f ps (strReplace path (placeholder p) (f p))
      (fun q hq => h q (List.mem_cons_of_mem _ hq))
    cases hbv : bf.val with
    | req v =>
      have hv : v = f p := by
        rw [hbv] at hval
        simpa [presentVal] using hval
      simp only [substPathParams, applyPathRep, hfind, hbv, List.foldl_cons, hv, ih]
    | opt o =>
      cases o with
      | none =>
        rw [hbv] at hval
        simp [presentVal] at hval
      | some v =>
        have hv : v = f p := by
          rw [hbv] at hval
          simpa [presentVal] using hval
        simp only [substPathParams, applyPathRep, hfind, hbv, List.foldl_cons, hv, ih]

/-- When every parameter before `p` resolves and `p`'s field is an unset
`Option`, the replacement statements fail with `missing_path_parameter(p)`. -/
theorem substPathParams_err (req : List BuiltField) (p : String)
    (post : List String) :
    ∀ (pre : List String) (path : String),
      (∀ q ∈ pre, ∃ bf, req.find? (fun b => b.spec.name = q) = some bf ∧
          ∃ v, presentVal bf.val = some v) →
      (∃ bf, req.find? (fun b => b.spec.name = p) = some bf ∧ bf.val = .opt none) →
      substPathParams req path (pre ++ p :: post) =
        .error (.missingPathParameter p)
  | [], path, _, ⟨bf, hfind, hval⟩ => by
    simp only [List.nil_append, substPathParams, applyPathRep, hfind, hval]
  | q :: pre, path, hpre, hp => by
    obtain ⟨bf, hfind, v, hval⟩ := hpre q (List.mem_cons_self _ _)
    have ih := substPathParams_err req p post pre
      (strReplace path (placeholder q) v)
      (fun r hr => hpre r (List.mem_cons_of_mem _ hr)) hp
    have happ : pre.append (p :: post) = pre ++ p :: post := rfl
    cases hbv : bf.val with
    | req w =>
      have hw : w = v := by
        rw [hbv] at hval
        simpa [presentVal] using hval
      simp only [List.cons_append, substPathParams, applyPathRep, hfind, hbv, hw,
        happ, ih]
    | opt o =>
      cases o with
      | none =>
        rw [hbv] at hval
        simp [presentVal] at hval
      | some w =>
        have hw : w = v := by
          rw [hbv] at hval
          simpa [presentVal] using hval
        simp only [List.cons_append, substPathParams, applyPathRep, hfind, hbv, hw,
          happ, ih]

/-! ### C3 -/

/-- C3: `build_url()` starts from the literal template and replaces each
`\x7bname\x7d` placeholder with the `to_string` of the field named `name`
(left to right over the extracted parameters, via `str::replace`); with
template `"/users/\x7bid\x7d"` and `id` set to `123` it returns
`Ok("/users/123")`; and when a placeholder's field is `Option`-typed and its
value is `None` at URL-build time — the parameters before it resolving — it
returns a missing-path-parameter error naming that parameter. -/
theorem build_url_substitutes_and_reports_missing (req : List BuiltField)
    (template : String) (enc : QsEncoder) (f : String → Val) :
    ((∀ p ∈ extract_path_params template,
        ∃ bf, req.find? (fun b => b.spec.name = p) = some bf ∧
          presentVal bf.val = some (f p)) →
      (queryFields req).isEmpty = true →
      build_url template req enc =
        .ok ((extract_path_params template).foldl
              (fun pth p => strReplace pth (placeholder p) (f p)) template)) ∧
    (build_url "/users/\x7bid\x7d" [⟨fieldId, .req "123"⟩] qsDefault =
      .ok "/users/123") ∧
    (∀ pre p post, extract_path_params template = pre ++ p :: post →
      (∀ q ∈ pre, ∃ bf, req.find? (fun b => b.spec.name = q) = some bf ∧
          ∃ v, presentVal bf.val = some v) →
      (∃ bf, req.find? (fun b => b.spec.name = p) = some bf ∧ bf.val = .opt none) →
      build_url template req enc = .error (.missingPathParameter p)) := by
  refine ⟨fun hres hq => ?_, by decide, fun pre p post hsplit hpre hp => ?_⟩
  · unfold build_url
    rw [substPathParams_ok req f (extract_path_params template) template hres, hq]
    simp only [if_true]
  · unfold build_url
    rw [hsplit, substPathParams_err req p post pre template hpre hp]

/-- C3 witness: the general substitution conjunct evaluated on
`"/users/\x7bid\x7d"` with `id = 123`. -/
theorem build_url_substitutes_witness :
    build_url "/users/\x7bid\x7d" [⟨fieldId, FieldVal.req "123"⟩] qsDefault =
      .ok "/users/123" := by
  have h := (build_url_substitutes_and_reports_missing
      [⟨fieldId, FieldVal.req "123"⟩] "/users/\x7bid\x7d" qsDefault
      (fun _ => "123")).1
    (by
      intro p hp
      have hp' : p = "id" := by
        have : extract_path_params "/users/\x7bid\x7d" = ["id"] := by decide
        rw [this] at hp
        simpa using hp
      subst hp'
      exact ⟨⟨fieldId, FieldVal.req "123"⟩, rfl, rfl⟩)
    rfl
  rw [h]
  decide

/-! ### Shared lemmas about the `HashMap` model -/

/-- Looking up the key just inserted yields the inserted value. -/
theorem mapGet_mapInsert_self (m : List (String × Val)) (k : String) (v : Val) :
    mapGet (mapInsert m k v) k = some v := by
  unfold mapInsert
  by_cases hany : m.any (fun p => p.1 = k) = true
  · rw [if_pos hany]
    induction m with
    | nil => cases hany
    | cons p m ih =>
      by_cases hp : p.1 = k
      · simp [mapGet, List.find?_cons, hp]
      · have hany' : m.any (fun q => q.1 = k) = true := by
          simpa [List.any_cons, hp] using hany
        simpa [mapGet, List.find?_cons, hp] using ih hany'
  · rw [if_neg hany]
    have hnone : m.find? (fun p => decide (p.1 = k)) = none := by
      rw [List.find?_eq_none]
      intro x hx hpx
      simp only [decide_eq_true_eq] at hpx
      exact hany (List.any_eq_true.mpr ⟨x, hx, by simpa using hpx⟩)
    simp [mapGet, List.find?_append, hnone, List.find?_cons]

/-- Overwriting the entries under key `k` leaves a lookup of a different key
unchanged. -/
theorem find?_map_overwrite (k k' : String) (v : Val) (hne : k' ≠ k) :
    ∀ m : List (String × Val),
      (m.map (fun q => if q.1 = k then (k, v) else q)).find?
          (fun q => q.1 = k') =
        m.find? (fun q => q.1 = k')
  | [] => rfl
  | p :: m => by
    have ih := find?_map_overwrite k k' v hne m
    by_cases hp : p.1 = k
    · have h2 : ¬(p.1 = k') := by
        rw [hp]
        exact Ne.symm hne
      simp [List.find?_cons, hp, h2, Ne.symm hne, ih]
    · by_cases hp' : p.1 = k'
      · simp only [List.map_cons, if_neg hp]
        rw [List.find?_cons, List.find?_cons]
        simp [hp']
      · simp [List.find?_cons, hp, hp', ih]

/-- Looking up a different key is unaffected by an insertion. -/
theorem mapGet_mapInsert_other (m : List (String × Val)) (k k' : String)
    (v : Val) (hne : k' ≠ k) :
    mapGet (mapInsert m k v) k' = mapGet m k' := by
  unfold mapInsert
  by_cases hany : m.any (fun p => p.1 = k) = true
  · rw [if_pos hany]
    simp only [mapGet, find?_map_overwrite k k' v hne m]
  · rw [if_neg hany]
    have hnone : List.find? (fun q => decide (q.1 = k')) [(k, v)] = none := by
      simp [List.find?_cons, Ne.symm hne]
    simp [mapGet, List.find?_append, hnone]

/-! ### C4 -/

/-- C4: `build_url()` hands the query fields' serialized pairs to the
configured query-string encoder; an `Option`-typed query field whose value is
`None` contributes no pair at all (so it never appears in the serialized
string); and the encoder's output is appended after `?` only when it is
non-empty — with no query fields, or an empty serialization, the URL is
exactly the substituted path, with no `?`. -/
theorem build_url_query_serialization (req : List BuiltField)
    (template : String) (enc : QsEncoder) (path : String) (n : String) :
    ((∀ bf ∈ queryFields req, bf.spec.name = n → bf.val = .opt none) →
      ∀ v, (n, v) ∉ serializePairs (queryFields req)) ∧
    (substPathParams req template (extract_path_params template) = .ok path →
      ((queryFields req).isEmpty = true → build_url template req enc = .ok path) ∧
      (∀ qs, (queryFields req).isEmpty = false →
        enc (serializePairs (queryFields req)) = .ok qs →
        build_url template req enc =
          .ok (if qs.isEmpty then path else path ++ "?" ++ qs))) := by
  constructor
  · intro hall v hmem
    rw [serializePairs, List.mem_filterMap] at hmem
    obtain ⟨bf, hbf, hmatch⟩ := hmem
    cases hbv : bf.val with
    | req w =>
      rw [hbv] at hmatch
      simp only [Option.some.injEq, Prod.mk.injEq] at hmatch
      have hn := hall bf hbf hmatch.1
      rw [hbv] at hn
      cases hn
    | opt o =>
      cases o with
      | none =>
        rw [hbv] at hmatch
        cases hmatch
      | some w =>
        rw [hbv] at hmatch
        simp only [Option.some.injEq, Prod.mk.injEq] at hmatch
        have hn := hall bf hbf hmatch.1
        rw [hbv] at hn
        simp at hn
  · intro hsub
    constructor
    · intro hq
      unfold build_url
      rw [hsub, hq]
      simp
    · intro qs hq henc
      unfold build_url
      rw [hsub, hq, henc]
      simp

/-- C4 witness: with `page = Some 2` and `limit = None`, `limit` contributes
no pair and the URL is `/items?page=2`. -/
theorem build_url_query_serialization_witness :
    (("limit", "3") ∉ serializePairs (queryFields reqQ)) ∧
    build_url "/items" reqQ qsDefault = .ok "/items?page=2" := by
  have h := build_url_query_serialization reqQ "/items" qsDefault "/items" "limit"
  refine ⟨h.1 ?_ "3", ?_⟩
  · intro bf hbf hn
    have hq : queryFields reqQ = reqQ := rfl
    rw [hq] at hbf
    simp only [reqQ, List.mem_cons, List.not_mem_nil, or_false] at hbf
    rcases hbf with hbf | hbf
    · subst hbf
      exact absurd hn (by decide)
    · subst hbf
      rfl
  · have h2 := (h.2 rfl).2 "page=2" rfl rfl
    rw [h2]
    decide

/-! ### C5 -/

/-- C5: with zero body-role fields `build_body()` is the constant `Ok(None)`;
with at least one body-role field it returns `Ok(Some bytes)` — the serialized
synthetic struct — and when every body field's value is `None` the serialized
document is the empty JSON object, since `None`-valued optional body fields
are skipped. -/
theorem build_body_presence (req : List BuiltField) :
    ((bodyFields req).isEmpty = true → build_body req = .ok none) ∧
    ((bodyFields req).isEmpty = false →
      build_body req = .ok (some (jsonObject (serializePairs (bodyFields req))))) ∧
    ((bodyFields req).isEmpty = false →
      (∀ bf ∈ bodyFields req, bf.val = .opt none) →
      build_body req = .ok (some "\x7b\x7d")) := by
  refine ⟨fun h => ?_, fun h => ?_, fun h hall => ?_⟩
  · unfold build_body
    simp [h]
  · unfold build_body
    simp [h]
  · unfold build_body
    have hpairs : serializePairs (bodyFields req) = [] := by
      rw [serializePairs, List.filterMap_eq_nil_iff]
      intro bf hbf
      rw [hall bf hbf]
    simp only [h, Bool.false_eq_true, if_false, hpairs, jsonObject]
    decide

/-- C5 witness: a single body field `note` set to `None` yields the empty
JSON object. -/
theorem build_body_presence_witness :
    build_body reqB = .ok (some "\x7b\x7d") :=
  (build_body_presence reqB).2.2 rfl
    (by
      intro bf hbf
      have hb : bodyFields reqB = reqB := rfl
      rw [hb] at hbf
      simp only [reqB, List.mem_cons, List.not_mem_nil, or_false] at hbf
      subst hbf
      rfl)

/-! ### C6 -/

/-- C6: a header-role field's entry is inserted under the explicit rename when
one is given — exactly that string — and otherwise under the field name
converted from snake_case to hyphen-joined Title-Case (`x_api_key` becomes
`X-Api-Key`); an `Option`-typed header field whose value is `None` contributes
no entry at all. -/
theorem build_headers_uses_rename_or_title_case (n r v : String) (isOpt : Bool)
    (dflt : DefaultBehavior) (dv : Val) (vald : Option (Val → Except String Unit))
    (l l₁ l₂ : List BuiltField) :
    (headerKey ⟨n, isOpt, .header, some r, dflt, dv, vald⟩ = r) ∧
    (headerKey ⟨n, isOpt, .header, none, dflt, dv, vald⟩ = snake_to_title_case n) ∧
    (snake_to_title_case "x_api_key" = "X-Api-Key") ∧
    (build_headers
        (l₁ ++ ⟨⟨n, true, .header, some r, dflt, dv, vald⟩, .opt none⟩ :: l₂) =
      build_headers (l₁ ++ l₂)) ∧
    (mapGet
        (build_headers
          (l ++ [⟨⟨n, isOpt, .header, some r, dflt, dv, vald⟩, .req v⟩])) r =
      some v) := by
  refine ⟨rfl, rfl, by decide, ?_, ?_⟩
  · have hfil : headerFields
        (l₁ ++ (⟨⟨n, true, .header, some r, dflt, dv, vald⟩, .opt none⟩ : BuiltField) :: l₂) =
        headerFields l₁ ++
          (⟨⟨n, true, .header, some r, dflt, dv, vald⟩, .opt none⟩ : BuiltField) ::
            headerFields l₂ := by
      unfold headerFields
      simp [List.filter_append, List.filter_cons]
    have hfil2 : headerFields (l₁ ++ l₂) = headerFields l₁ ++ headerFields l₂ := by
      unfold headerFields
      simp [List.filter_append]
    unfold build_headers
    rw [hfil, hfil2, List.foldl_append, List.foldl_cons, List.foldl_append]
  · have hsplit :
        build_headers (l ++ [⟨⟨n, isOpt, .header, some r, dflt, dv, vald⟩, .req v⟩]) =
          mapInsert (build_headers l) r v := by
      have hfil : headerFields
          (l ++ [(⟨⟨n, isOpt, .header, some r, dflt, dv, vald⟩, .req v⟩ : BuiltField)]) =
          headerFields l ++
            [(⟨⟨n, isOpt, .header, some r, dflt, dv, vald⟩, .req v⟩ : BuiltField)] := by
        unfold headerFields
        simp [List.filter_append, List.filter_cons]
      unfold build_headers
      rw [hfil, List.foldl_append]
      rfl
    rw [hsplit]
    exact mapGet_mapInsert_self (build_headers l) r v

/-! ### Shared lemmas about the send paths -/

/-- Lookup through `HashMap::extend`: an entry of the extending map wins; a
key absent from it falls back to the base map.  The extending map is a
`HashMap` itself, so its keys are distinct. -/
theorem mapGet_extendMap (k : String) :
    ∀ (other m : List (String × Val)), (other.map Prod.fst).Nodup →
      mapGet (extendMap m other) k = (mapGet other k).or (mapGet m k)
  | [], m, _ => by simp [extendMap, mapGet]
  | (k₁, v₁) :: other, m, hnd => by
    have hnd' : (other.map Prod.fst).Nodup :=
      (List.nodup_cons.mp (by simpa using hnd)).2
    have hk₁ : k₁ ∉ other.map Prod.fst :=
      (List.nodup_cons.mp (by simpa using hnd)).1
    have ih := mapGet_extendMap k other (mapInsert m k₁ v₁) hnd'
    rw [show extendMap m ((k₁, v₁) :: other) = extendMap (mapInsert m k₁ v₁) other
      from rfl, ih]
    by_cases hk : k = k₁
    · subst hk
      have hnone : mapGet other k = none := by
        have hf : other.find? (fun p => decide (p.1 = k)) = none :=
          List.find?_eq_none.mpr (by
            intro p hp hpk
            simp only [decide_eq_true_eq] at hpk
            exact hk₁ (List.mem_map.mpr ⟨p, hp, hpk⟩))
        simp [mapGet, hf]
      rw [hnone, mapGet_mapInsert_self]
      simp [mapGet, List.find?_cons]
    · rw [mapGet_mapInsert_other m k₁ k v₁ hk]
      have : mapGet ((k₁, v₁) :: other) k = mapGet other k := by
        simp [mapGet, List.find?_cons, Ne.symm hk]
      rw [this]

/-- On success, the headers `send()` hands to the client are the field-derived
headers extended with the dynamic headers. -/
theorem builderSend_ok_headers (sd : Bool) (method : Option String)
    (template : String) (enc : QsEncoder) (ex : BuilderExtras)
    (slots : List (FieldSpec × Option Val)) (req : List BuiltField)
    (call : SendCall)
    (hsend : builderSend sd method template enc ex slots = .ok call)
    (hbuild : buildFields sd slots = .ok req) :
    call.headers = extendMap (build_headers req) ex.dynamicHeaders := by
  unfold builderSend at hsend
  repeat' split at hsend
  all_goals cases hsend
  simp_all

/-- On success, the headers `send_async()` hands to the client are the
field-derived headers extended with the dynamic headers. -/
theorem builderSendAsync_ok_headers (sd : Bool) (method : Option String)
    (template : String) (enc : QsEncoder) (ex : BuilderExtras)
    (slots : List (FieldSpec × Option Val)) (req : List BuiltField)
    (call : SendCall)
    (hsend : builderSendAsync sd method template enc ex slots = .ok call)
    (hbuild : buildFields sd slots = .ok req) :
    call.headers = extendMap (build_headers req) ex.dynamicHeaders := by
  unfold builderSendAsync at hsend
  repeat' split at hsend
  all_goals cases hsend
  simp_all

/-! ### C10 -/

/-- C10: in both `send()` and `send_async()`, the header map handed to the
transport client is `build_headers()` extended with the dynamic headers added
through `header(name, value)`: a dynamic header is always present in the sent
map (overriding a field-derived header under the same key), and a key carried
by no dynamic header resolves to the field-derived headers. -/
theorem send_headers_extend_dynamic (sd : Bool) (method : Option String)
    (template : String) (enc : QsEncoder) (ex : BuilderExtras)
    (slots : List (FieldSpec × Option Val)) (req : List BuiltField)
    (call call' : SendCall) (k : String) :
    (builderSend sd method template enc ex slots = .ok call →
      buildFields sd slots = .ok req →
      (ex.dynamicHeaders.map Prod.fst).Nodup →
      (∀ v, mapGet ex.dynamicHeaders k = some v →
        mapGet call.headers k = some v) ∧
      (mapGet ex.dynamicHeaders k = none →
        mapGet call.headers k = mapGet (build_headers req) k)) ∧
    (builderSendAsync sd method template enc ex slots = .ok call' →
      buildFields sd slots = .ok req →
      (ex.dynamicHeaders.map Prod.fst).Nodup →
      (∀ v, mapGet ex.dynamicHeaders k = some v →
        mapGet call'.headers k = some v) ∧
      (mapGet ex.dynamicHeaders k = none →
        mapGet call'.headers k = mapGet (build_headers req) k)) := by
  constructor
  · intro hsend hbuild hnd
    rw [builderSend_ok_headers sd method template enc ex slots req call hsend hbuild]
    rw [mapGet_extendMap k ex.dynamicHeaders (build_headers req) hnd]
    constructor
    · intro v hv
      rw [hv]
      rfl
    · intro hv
      rw [hv]
      rfl
  · intro hsend hbuild hnd
    rw [builderSendAsync_ok_headers sd method template enc ex slots req call' hsend hbuild]
    rw [mapGet_extendMap k ex.dynamicHeaders (build_headers req) hnd]
    constructor
    · intro v hv
      rw [hv]
      rfl
    · intro hv
      rw [hv]
      rfl

/-- C10 witness: the dynamic `X-Api-Key: dyn` overrides the field-derived
`X-Api-Key: k1` in the sent header map. -/
theorem send_headers_extend_dynamic_witness :
    mapGet callH.headers "X-Api-Key" = some "dyn" :=
  ((send_headers_extend_dynamic false none "/items" qsDefault exSend slotsH
      reqH callH callH "X-Api-Key").1 rfl rfl (by decide)).1 "dyn" rfl

/-! ### C9 -/

/-- C9 (code bug): the builder's `send()` and `send_async()` hand the optional
timeout through to the transport client unchanged (`timeoutArg = some (some 30)`
below), but the generated `send_with_client` calls the client's `send` with
only `(method, url, headers, body)` — no timeout argument at all
(`timeoutArg = none`) — although the repo's `HttpClient` trait declares
`send(method, url, headers, body, timeout)`. -/
theorem send_with_client_omits_timeout :
    (builderSend false none "/items" qsDefault exSend slotsH).map
        (fun c => c.timeoutArg) = .ok (some (some 30)) ∧
    (builderSendAsync false none "/items" qsDefault exSend slotsH).map
        (fun c => c.timeoutArg) = .ok (some (some 30)) ∧
    (send_with_client none "/items" qsDefault reqH "https://api").map
        (fun c => c.timeoutArg) = .ok none :=
  ⟨rfl, rfl, rfl⟩

/-! ### Shared lemmas about unknown attribute keys -/

/-- A struct-level entry with an unrecognized key falls through every branch
of the callback. -/
theorem parseStructStep_unknown (acc : StructAttributes) (e : MetaEntry)
    (h : e.key ∉ structKnownKeys) :
    parseStructStep acc e = .error "unsupported request_builder attribute" := by
  have h1 : ¬(e.key = "into") := fun hc => h (by rw [hc]; decide)
  have h2 : ¬(e.key = "method") := fun hc => h (by rw [hc]; decide)
  have h3 : ¬(e.key = "path") := fun hc => h (by rw [hc]; decide)
  have h4 : ¬(e.key = "response") := fun hc => h (by rw [hc]; decide)
  have h5 : ¬(e.key = "default") := fun hc => h (by rw [hc]; decide)
  have h6 : ¬(e.key = "query_config") := fun hc => h (by rw [hc]; decide)
  unfold parseStructStep
  rw [if_neg h1, if_neg h2, if_neg h3, if_neg h4, if_neg h5, if_neg h6]

/-- A struct-level entry the callback accepts carries a recognized key. -/
theorem parseStructStep_ok_known (acc acc' : StructAttributes) (e : MetaEntry)
    (h : parseStructStep acc e = .ok acc') : e.key ∈ structKnownKeys := by
  by_contra hmem
  rw [parseStructStep_unknown acc e hmem] at h
  cases h

/-- An unrecognized key anywhere in a struct-level entry list makes the parse
fail. -/
theorem parseStructFrom_unknown (es : List MetaEntry) :
    ∀ acc, (∃ e ∈ es, e.key ∉ structKnownKeys) →
      ∃ msg, parseStructFrom acc es = .error msg := by
  induction es with
  | nil =>
    rintro acc ⟨e, he, -⟩
    cases he
  | cons e rest ih =>
    rintro acc ⟨w, hw, hwk⟩
    cases hstep : parseStructStep acc e with
    | error msg =>
      exact ⟨msg, by unfold parseStructFrom; rw [hstep]⟩
    | ok acc' =>
      have hek : e.key ∈ structKnownKeys := parseStructStep_ok_known acc acc' e hstep
      have hwrest : w ∈ rest := by
        rcases List.mem_cons.mp hw with hwe | h
        · subst hwe
          exact absurd hek hwk
        · exact h
      obtain ⟨msg, hmsg⟩ := ih acc' ⟨w, hwrest, hwk⟩
      exact ⟨msg, by unfold parseStructFrom; rw [hstep]; exact hmsg⟩

/-- A field-level entry with an unrecognized key falls through every branch of
the callback. -/
theorem parseFieldStep_unknown (acc : FieldAttributes) (e : MetaEntry)
    (h : e.key ∉ fieldKnownKeys) :
    parseFieldStep acc e =
      .error "unsupported field-level request_builder attribute" := by
  have h1 : ¬(e.key = "into") := fun hc => h (by rw [hc]; decide)
  have h2 : ¬(e.key = "path") := fun hc => h (by rw [hc]; decide)
  have h3 : ¬(e.key = "query") := fun hc => h (by rw [hc]; decide)
  have h4 : ¬(e.key = "body") := fun hc => h (by rw [hc]; decide)
  have h5 : ¬(e.key = "header") := fun hc => h (by rw [hc]; decide)
  have h6 : ¬(e.key = "default") := fun hc => h (by rw [hc]; decide)
  have h7 : ¬(e.key = "validate") := fun hc => h (by rw [hc]; decide)
  unfold parseFieldStep
  rw [if_neg h1, if_neg h2, if_neg h3, if_neg h4, if_neg h5, if_neg h6, if_neg h7]

/-- A field-level entry the callback accepts carries a recognized key. -/
theorem parseFieldStep_ok_known (acc acc' : FieldAttributes) (e : MetaEntry)
    (h : parseFieldStep acc e = .ok acc') : e.key ∈ fieldKnownKeys := by
  by_contra hmem
  rw [parseFieldStep_unknown acc e hmem] at h
  cases h

/-- An unrecognized key anywhere in a field-level entry list makes the parse
fail. -/
theorem parseFieldFrom_unknown (es : List MetaEntry) :
    ∀ acc, (∃ e ∈ es, e.key ∉ fieldKnownKeys) →
      ∃ msg, parseFieldFrom acc es = .error msg := by
  induction es with
  | nil =>
    rintro acc ⟨e, he, -⟩
    cases he
  | cons e rest ih =>
    rintro acc ⟨w, hw, hwk⟩
    cases hstep : parseFieldStep acc e with
    | error msg =>
      exact ⟨msg, by unfold parseFieldFrom; rw [hstep]⟩
    | ok acc' =>
      have hek : e.key ∈ fieldKnownKeys := parseFieldStep_ok_known acc acc' e hstep
      have hwrest : w ∈ rest := by
        rcases List.mem_cons.mp hw with hwe | h
        · subst hwe
          exact absurd hek hwk
        · exact h
      obtain ⟨msg, hmsg⟩ := ih acc' ⟨w, hwrest, hwk⟩
      exact ⟨msg, by unfold parseFieldFrom; rw [hstep]; exact hmsg⟩

/-! ### C7 -/

/-- C7 counterexample: an unknown field-level key does make
`parse_field_attributes` return an error, but generation does not fail — the
generator swallows the error with `unwrap_or_default()` and proceeds with the
default field configuration, silently ignoring the annotation. -/
theorem unknown_field_key_is_swallowed :
    parse_field_attributes [⟨"frobnicate", none⟩] =
      .error "unsupported field-level request_builder attribute" ∧
    generationOutcome [] [[⟨"frobnicate", none⟩]] =
      .ok (StructAttributes.init, [FieldAttributes.init]) :=
  ⟨rfl, rfl⟩

/-- C7 amended: a `request_builder` key outside the recognized set makes the
corresponding parse function return an error at both levels, and at struct
level that error aborts generation; at field level, however, every generator
call site discards the parse error with `unwrap_or_default()`, so generation
succeeds and the field's whole attribute list is silently ignored (the field
is treated as unannotated). -/
theorem unknown_keys_error_but_field_errors_swallowed :
    (∀ es : List MetaEntry, (∃ e ∈ es, e.key ∉ structKnownKeys) →
      ∃ msg, parse_struct_attributes es = .error msg) ∧
    (∀ (es : List MetaEntry) (fieldEss : List (List MetaEntry)),
      (∃ e ∈ es, e.key ∉ structKnownKeys) →
      ∃ msg, generationOutcome es fieldEss = .error msg) ∧
    (∀ es : List MetaEntry, (∃ e ∈ es, e.key ∉ fieldKnownKeys) →
      ∃ msg, parse_field_attributes es = .error msg) ∧
    (∀ es : List MetaEntry, (∃ e ∈ es, e.key ∉ fieldKnownKeys) →
      effectiveFieldAttrs es = FieldAttributes.init) := by
  refine ⟨fun es h => parseStructFrom_unknown es _ h, fun es fieldEss h => ?_,
    fun es h => parseFieldFrom_unknown es _ h, fun es h => ?_⟩
  · obtain ⟨msg, hmsg⟩ := parseStructFrom_unknown es StructAttributes.init h
    exact ⟨msg, by unfold generationOutcome parse_struct_attributes; rw [hmsg]⟩
  · obtain ⟨msg, hmsg⟩ := parseFieldFrom_unknown es FieldAttributes.init h
    unfold effectiveFieldAttrs parse_field_attributes
    rw [hmsg]

/-- C7 witness: an unknown struct-level key `frobnicate` aborts generation. -/
theorem unknown_keys_witness :
    ∃ msg, generationOutcome [⟨"frobnicate", none⟩] [] = .error msg :=
  unknown_keys_error_but_field_errors_swallowed.2.1 [⟨"frobnicate", none⟩] []
    ⟨⟨"frobnicate", none⟩, List.mem_singleton.mpr rfl, by decide⟩

/-! ### Shared lemmas: canonical form of attribute parsing -/

/-- Unfolding one entry of the struct-level fold. -/
theorem parseStructFrom_cons (acc : StructAttributes) (e : MetaEntry)
    (rest : List MetaEntry) :
    parseStructFrom acc (e :: rest) =
      match parseStructStep acc e with
      | .ok acc' => parseStructFrom acc' rest
      | .error msg => .error msg := rfl

/-- Unfolding one accepted entry of the struct-level fold. -/
theorem parseStructFrom_cons_ok (acc acc' : StructAttributes) (e : MetaEntry)
    (rest : List MetaEntry) (h : parseStructStep acc e = .ok acc') :
    parseStructFrom acc (e :: rest) = parseStructFrom acc' rest := by
  rw [parseStructFrom_cons, h]

/-- Unfolding one entry of the field-level fold. -/
theorem parseFieldFrom_cons (acc : FieldAttributes) (e : MetaEntry)
    (rest : List MetaEntry) :
    parseFieldFrom acc (e :: rest) =
      match parseFieldStep acc e with
      | .ok acc' => parseFieldFrom acc' rest
      | .error msg => .error msg := rfl

/-- Unfolding one accepted entry of the field-level fold. -/
theorem parseFieldFrom_cons_ok (acc acc' : FieldAttributes) (e : MetaEntry)
    (rest : List MetaEntry) (h : parseFieldStep acc e = .ok acc') :
    parseFieldFrom acc (e :: rest) = parseFieldFrom acc' rest := by
  rw [parseFieldFrom_cons, h]

/-- On well-formed entries the struct-level parse succeeds and computes the
canonical componentwise configuration. -/
theorem parseStructFrom_canon :
    ∀ (es : List MetaEntry) (acc : StructAttributes),
      (∀ e ∈ es, structEntryWF e = true) →
      parseStructFrom acc es = .ok (structCanonFrom acc es)
  | [], acc, _ => by
    simp [parseStructFrom, structCanonFrom, lastValueFrom]
  | e :: rest, acc, hwf => by
    have hwfe := hwf e (List.mem_cons_self _ _)
    have hwfr : ∀ x ∈ rest, structEntryWF x = true :=
      fun x hx => hwf x (List.mem_cons_of_mem _ hx)
    unfold structEntryWF at hwfe
    by_cases h1 : e.key = "into"
    · have hv : e.value = none := by
        simp [h1] at hwfe
        exact hwfe
      have hstep : parseStructStep acc e = .ok { acc with intoFlag := true } := by
        unfold parseStructStep
        rw [if_pos h1, hv]
      rw [parseStructFrom_cons_ok acc _ e rest hstep,
        parseStructFrom_canon rest _ hwfr]
      congr 1
      simp [structCanonFrom, lastValueFrom, List.any_cons, List.foldl_cons, h1]
    · by_cases h2 : e.key = "method"
      · obtain ⟨v, hv⟩ : ∃ v, e.value = some v := by
          simp [h2] at hwfe
          exact Option.isSome_iff_exists.mp hwfe
        have hstep : parseStructStep acc e = .ok { acc with method := some v } := by
          unfold parseStructStep
          rw [if_neg h1, if_pos h2, hv]
        rw [parseStructFrom_cons_ok acc _ e rest hstep,
          parseStructFrom_canon rest _ hwfr]
        congr 1
        simp [structCanonFrom, lastValueFrom, List.any_cons, List.foldl_cons, h2, hv,
          h1]
      · by_cases h3 : e.key = "path"
        · obtain ⟨v, hv⟩ : ∃ v, e.value = some v := by
            simp [h3] at hwfe
            exact Option.isSome_iff_exists.mp hwfe
          have hstep : parseStructStep acc e = .ok { acc with path := some v } := by
            unfold parseStructStep
            rw [if_neg h1, if_neg h2, if_pos h3, hv]
          rw [parseStructFrom_cons_ok acc _ e rest hstep,
            parseStructFrom_canon rest _ hwfr]
          congr 1
          simp [structCanonFrom, lastValueFrom, List.any_cons, List.foldl_cons, h3,
            hv, h1, h2]
        · by_cases h4 : e.key = "response"
          · obtain ⟨v, hv⟩ : ∃ v, e.value = some v := by
              simp [h4] at hwfe
              exact Option.isSome_iff_exists.mp hwfe
            have hstep : parseStructStep acc e =
                .ok { acc with response := some v } := by
              unfold parseStructStep
              rw [if_neg h1, if_neg h2, if_neg h3, if_pos h4, hv]
            rw [parseStructFrom_cons_ok acc _ e rest hstep,
              parseStructFrom_canon rest _ hwfr]
            congr 1
            simp [structCanonFrom, lastValueFrom, List.any_cons, List.foldl_cons,
              h4, hv, h1, h2, h3]
          · by_cases h5 : e.key = "default"
            · have hv : e.value = none := by
                simp [h5] at hwfe
                exact hwfe
              have hstep : parseStructStep acc e =
                  .ok { acc with defaultFlag := true } := by
                unfold parseStructStep
                rw [if_neg h1, if_neg h2, if_neg h3, if_neg h4, if_pos h5, hv]
              rw [parseStructFrom_cons_ok acc _ e rest hstep,
                parseStructFrom_canon rest _ hwfr]
              congr 1
              simp [structCanonFrom, lastValueFrom, List.any_cons, List.foldl_cons,
                h5, h1, h2, h3, h4]
            · by_cases h6 : e.key = "query_config"
              · obtain ⟨v, hv⟩ : ∃ v, e.value = some v := by
                  simp [h6] at hwfe
                  exact Option.isSome_iff_exists.mp hwfe
                have hstep : parseStructStep acc e =
                    .ok { acc with query_config := some v } := by
                  unfold parseStructStep
                  rw [if_neg h1, if_neg h2, if_neg h3, if_neg h4, if_neg h5,
                    if_pos h6, hv]
                rw [parseStructFrom_cons_ok acc _ e rest hstep,
                  parseStructFrom_canon rest _ hwfr]
                congr 1
                simp [structCanonFrom, lastValueFrom, List.any_cons,
                  List.foldl_cons, h6, hv, h1, h2, h3, h4, h5]
              · exfalso
                simp [h1, h2, h3, h4, h5, h6] at hwfe

/-- On well-formed entries the field-level parse succeeds and computes the
canonical componentwise configuration. -/
theorem parseFieldFrom_canon :
    ∀ (es : List MetaEntry) (acc : FieldAttributes),
      (∀ e ∈ es, fieldEntryWF e = true) →
      parseFieldFrom acc es = .ok (fieldCanonFrom acc es)
  | [], acc, _ => by
    simp [parseFieldFrom, fieldCanonFrom, lastValueFrom, lastKindFrom,
      lastRenameFrom]
  | e :: rest, acc, hwf => by
    have hwfe := hwf e (List.mem_cons_self _ _)
    have hwfr : ∀ x ∈ rest, fieldEntryWF x = true :=
      fun x hx => hwf x (List.mem_cons_of_mem _ hx)
    unfold fieldEntryWF at hwfe
    by_cases h1 : e.key = "into"
    · have hv : e.value = none := by
        simp [h1] at hwfe
        exact hwfe
      have hstep : parseFieldStep acc e = .ok { acc with intoFlag := true } := by
        unfold parseFieldStep
        rw [if_pos h1, hv]
      rw [parseFieldFrom_cons_ok acc _ e rest hstep,
        parseFieldFrom_canon rest _ hwfr]
      congr 1
      simp [fieldCanonFrom, lastValueFrom, lastKindFrom, lastRenameFrom,
        List.any_cons, List.foldl_cons, isRoleKey, h1]
    · by_cases h2 : e.key = "path"
      · have hv : e.value = none := by
          simp [h1, h2] at hwfe
          exact hwfe
        have hstep : parseFieldStep acc e = .ok { acc with kind := .path } := by
          unfold parseFieldStep
          rw [if_neg h1, if_pos h2, hv]
        rw [parseFieldFrom_cons_ok acc _ e rest hstep,
          parseFieldFrom_canon rest _ hwfr]
        congr 1
        simp [fieldCanonFrom, lastValueFrom, lastKindFrom, lastRenameFrom,
          List.any_cons, List.foldl_cons, isRoleKey, roleKind, h1, h2, hv]
      · by_cases h3 : e.key = "query"
        · cases hv : e.value with
          | none =>
            have hstep : parseFieldStep acc e = .ok { acc with kind := .query } := by
              unfold parseFieldStep
              rw [if_neg h1, if_neg h2, if_pos h3, hv]
            rw [parseFieldFrom_cons_ok acc _ e rest hstep,
              parseFieldFrom_canon rest _ hwfr]
            congr 1
            simp [fieldCanonFrom, lastValueFrom, lastKindFrom, lastRenameFrom,
              List.any_cons, List.foldl_cons, isRoleKey, roleKind, h1, h2, h3, hv]
          | some v =>
            have hstep : parseFieldStep acc e =
                .ok { acc with kind := .query, rename := some v } := by
              unfold parseFieldStep
              rw [if_neg h1, if_neg h2, if_pos h3, hv]
            rw [parseFieldFrom_cons_ok acc _ e rest hstep,
              parseFieldFrom_canon rest _ hwfr]
            congr 1
            simp [fieldCanonFrom, lastValueFrom, lastKindFrom, lastRenameFrom,
              List.any_cons, List.foldl_cons, isRoleKey, roleKind, h1, h2, h3, hv]
        · by_cases h4 : e.key = "body"
          · cases hv : e.value with
            | none =>
              have hstep : parseFieldStep acc e = .ok { acc with kind := .body } := by
                unfold parseFieldStep
                rw [if_neg h1, if_neg h2, if_neg h3, if_pos h4, hv]
              rw [parseFieldFrom_cons_ok acc _ e rest hstep,
                parseFieldFrom_canon rest _ hwfr]
              congr 1
              simp [fieldCanonFrom, lastValueFrom, lastKindFrom, lastRenameFrom,
                List.any_cons, List.foldl_cons, isRoleKey, roleKind, h1, h2, h3,
                h4, hv]
            | some v =>
              have hstep : parseFieldStep acc e =
                  .ok { acc with kind := .body, rename := some v } := by
                unfold parseFieldStep
                rw [if_neg h1, if_neg h2, if_neg h3, if_pos h4, hv]
              rw [parseFieldFrom_cons_ok acc _ e rest hstep,
                parseFieldFrom_canon rest _ hwfr]
              congr 1
              simp [fieldCanonFrom, lastValueFrom, lastKindFrom, lastRenameFrom,
                List.any_cons, List.foldl_cons, isRoleKey, roleKind, h1, h2, h3,
                h4, hv]
          · by_cases h5 : e.key = "header"
            · cases hv : e.value with
              | none =>
                have hstep : parseFieldStep acc e =
                    .ok { acc with kind := .header } := by
                  unfold parseFieldStep
                  rw [if_neg h1, if_neg h2, if_neg h3, if_neg h4, if_pos h5, hv]
                rw [parseFieldFrom_cons_ok acc _ e rest hstep,
                  parseFieldFrom_canon rest _ hwfr]
                congr 1
                simp [fieldCanonFrom, lastValueFrom, lastKindFrom, lastRenameFrom,
                  List.any_cons, List.foldl_cons, isRoleKey, roleKind, h1, h2, h3,
                  h4, h5, hv]
              | some v =>
                have hstep : parseFieldStep acc e =
                    .ok { acc with kind := .header, rename := some v } := by
                  unfold parseFieldStep
                  rw [if_neg h1, if_neg h2, if_neg h3, if_neg h4, if_pos h5, hv]
                rw [parseFieldFrom_cons_ok acc _ e rest hstep,
                  parseFieldFrom_canon rest _ hwfr]
                congr 1
                simp [fieldCanonFrom, lastValueFrom, lastKindFrom, lastRenameFrom,
                  List.any_cons, List.foldl_cons, isRoleKey, roleKind, h1, h2, h3,
                  h4, h5, hv]
            · by_cases h6 : e.key = "default"
              · have hv : e.value = none := by
                  simp [h1, h2, h3, h4, h5, h6] at hwfe
                  exact hwfe
                have hstep : parseFieldStep acc e =
                    .ok { acc with defaultFlag := true } := by
                  unfold parseFieldStep
                  rw [if_neg h1, if_neg h2, if_neg h3, if_neg h4, if_neg h5,
                    if_pos h6, hv]
                rw [parseFieldFrom_cons_ok acc _ e rest hstep,
                  parseFieldFrom_canon rest _ hwfr]
                congr 1
                simp [fieldCanonFrom, lastValueFrom, lastKindFrom, lastRenameFrom,
                  List.any_cons, List.foldl_cons, isRoleKey, h1, h2, h3, h4, h5, h6]
              · by_cases h7 : e.key = "validate"
                · obtain ⟨v, hv⟩ : ∃ v, e.value = some v := by
                    simp [h1, h2, h3, h4, h5, h6, h7] at hwfe
                    exact Option.isSome_iff_exists.mp hwfe
                  have hstep : parseFieldStep acc e =
                      .ok { acc with validate := some v } := by
                    unfold parseFieldStep
                    rw [if_neg h1, if_neg h2, if_neg h3, if_neg h4, if_neg h5,
                      if_neg h6, if_pos h7, hv]
                  rw [parseFieldFrom_cons_ok acc _ e rest hstep,
                    parseFieldFrom_canon rest _ hwfr]
                  congr 1
                  simp [fieldCanonFrom, lastValueFrom, lastKindFrom,
                    lastRenameFrom, List.any_cons, List.foldl_cons, isRoleKey,
                    h1, h2, h3, h4, h5, h6, h7, hv]
                · exfalso
                  simp [h1, h2, h3, h4, h5, h6, h7] at hwfe

/-! ### Shared lemmas: permutation invariance of the canonical form -/

/-- Lists of length at most one have all their members equal. -/
theorem eq_of_mem_of_length_le_one {α : Type} (l : List α) (h : l.length ≤ 1)
    (a b : α) (ha : a ∈ l) (hb : b ∈ l) : a = b := by
  cases l with
  | nil => cases ha
  | cons x rest =>
    cases rest with
    | nil =>
      simp only [List.mem_singleton] at ha hb
      rw [ha, hb]
    | cons y t => simp at h

/-- `any` only looks at membership, so it is permutation invariant. -/
theorem any_congr_perm (es₁ es₂ : List MetaEntry) (h : es₁.Perm es₂)
    (f : MetaEntry → Bool) : es₁.any f = es₂.any f := by
  cases h1 : es₂.any f
  · rw [List.any_eq_false] at h1 ⊢
    intro x hx
    exact h1 x (h.mem_iff.mp hx)
  · rw [List.any_eq_true] at h1 ⊢
    obtain ⟨x, hx, hfx⟩ := h1
    exact ⟨x, h.mem_iff.mpr hx, hfx⟩

/-- When at most one element matches, `find?` is permutation invariant. -/
theorem find?_congr_perm (p : MetaEntry → Bool) (es₁ es₂ : List MetaEntry)
    (hperm : es₁.Perm es₂) (huni : (es₁.filter p).length ≤ 1) :
    es₁.find? p = es₂.find? p := by
  cases h : es₁.find? p with
  | none =>
    have hnone : ∀ x ∈ es₂, ¬p x = true := fun x hx =>
      List.find?_eq_none.mp h x (hperm.mem_iff.mpr hx)
    exact (List.find?_eq_none.mpr hnone).symm
  | some e =>
    have he₁ : e ∈ es₁ := List.mem_of_find?_eq_some h
    have hpe : p e = true := List.find?_some h
    have hsome : (es₂.find? p).isSome := by
      rw [List.find?_isSome]
      exact ⟨e, hperm.mem_iff.mp he₁, hpe⟩
    obtain ⟨e', he'⟩ := Option.isSome_iff_exists.mp hsome
    have he'₂ : e' ∈ es₂ := List.mem_of_find?_eq_some he'
    have hpe' : p e' = true := List.find?_some he'
    have he'₁ : e' ∈ es₁ := hperm.mem_iff.mpr he'₂
    have heq : e = e' :=
      eq_of_mem_of_length_le_one (es₁.filter p) huni e e'
        (List.mem_filter.mpr ⟨he₁, hpe⟩) (List.mem_filter.mpr ⟨he'₁, hpe'⟩)
    rw [he', heq]

/-- Entries with pairwise distinct keys have at most one entry per key. -/
theorem filter_key_len_le_one (es : List MetaEntry)
    (hnd : (es.map MetaEntry.key).Nodup) (k : String) :
    (es.filter (fun e => e.key = k)).length ≤ 1 := by
  rcases hfe : es.filter (fun e => e.key = k) with _ | ⟨x, _ | ⟨y, t⟩⟩
  · rw [hfe]
    simp
  · rw [hfe]
    simp
  · exfalso
    have hx : x ∈ es.filter (fun e => e.key = k) := by
      rw [hfe]
      exact List.mem_cons_self _ _
    have hy : y ∈ es.filter (fun e => e.key = k) := by
      rw [hfe]
      exact List.mem_cons_of_mem _ (List.mem_cons_self _ _)
    have hx' := List.mem_filter.mp hx
    have hy' := List.mem_filter.mp hy
    have hkx : x.key = k := by simpa using hx'.2
    have hky : y.key = k := by simpa using hy'.2
    have hxy : x = y :=
      List.inj_on_of_nodup_map hnd hx'.1 hy'.1 (by rw [hkx, hky])
    have hndes : es.Nodup := List.Nodup.of_map _ hnd
    have hndf : (es.filter (fun e => e.key = k)).Nodup := hndes.filter _
    rw [hfe] at hndf
    exact (List.nodup_cons.mp hndf).1 (hxy ▸ List.mem_cons_self _ _)

/-- A conjunctive filter is at most as long as the filter on its left
conjunct. -/
theorem filter_and_length_le (es : List MetaEntry) (p q : MetaEntry → Bool) :
    (es.filter (fun e => p e && q e)).length ≤ (es.filter p).length := by
  induction es with
  | nil => simp
  | cons e rest ih =>
    rw [List.filter_cons, List.filter_cons]
    by_cases hpq : (p e && q e) = true
    · have hp : p e = true := (Bool.and_eq_true_iff.mp hpq).1
      rw [if_pos hpq, if_pos hp]
      simp only [List.length_cons]
      omega
    · rw [if_neg hpq]
      by_cases hp : p e = true
      · rw [if_pos hp]
        simp only [List.length_cons]
        omega
      · rw [if_neg hp]
        exact ih

/-- A fold that only assigns on matching entries keeps its initial value when
nothing matches. -/
theorem lastValueFrom_no_match (k : String) :
    ∀ (es : List MetaEntry) (init : Option String),
      (∀ x ∈ es, ¬(x.key = k)) → lastValueFrom k init es = init
  | [], _, _ => rfl
  | e :: rest, init, h => by
    have hpe : ¬(e.key = k) := h e (List.mem_cons_self _ _)
    have hcons : lastValueFrom k init (e :: rest) =
        lastValueFrom k (if e.key = k then e.value else init) rest := rfl
    rw [hcons, if_neg hpe]
    exact lastValueFrom_no_match k rest init
      (fun x hx => h x (List.mem_cons_of_mem _ hx))

/-- With at most one `k`-keyed entry, the last-wins fold is the value of the
unique entry found, or the initial value. -/
theorem lastValueFrom_eq_find (k : String) :
    ∀ (es : List MetaEntry) (init : Option String),
      (es.filter (fun e => e.key = k)).length ≤ 1 →
      lastValueFrom k init es =
        (match es.find? (fun e => e.key = k) with
         | some e => e.value
         | none => init)
  | [], _, _ => rfl
  | e :: rest, init, hlen => by
    have hcons : lastValueFrom k init (e :: rest) =
        lastValueFrom k (if e.key = k then e.value else init) rest := rfl
    by_cases hp : e.key = k
    · have hfe : (e :: rest).filter (fun e => e.key = k) =
          e :: rest.filter (fun e => e.key = k) := by
        simp [List.filter_cons, hp]
      have hrest : ∀ x ∈ rest, ¬(x.key = k) := by
        intro x hx hpx
        have hxmem : x ∈ rest.filter (fun e => e.key = k) :=
          List.mem_filter.mpr ⟨hx, by simpa using hpx⟩
        have hpos : 0 < (rest.filter (fun e => e.key = k)).length :=
          List.length_pos_of_mem hxmem
        rw [hfe] at hlen
        simp only [List.length_cons] at hlen
        omega
      rw [hcons, if_pos hp, lastValueFrom_no_match k rest _ hrest]
      have hfind : (e :: rest).find? (fun e => e.key = k) = some e := by
        simp [List.find?_cons, hp]
      rw [hfind]
    · have hfe : (e :: rest).filter (fun e => e.key = k) =
          rest.filter (fun e => e.key = k) := by
        simp [List.filter_cons, hp]
      have hfind : (e :: rest).find? (fun e => e.key = k) =
          rest.find? (fun e => e.key = k) := by
        simp [List.find?_cons, hp]
      rw [hcons, if_neg hp,
        lastValueFrom_eq_find k rest init (by rw [hfe] at hlen; exact hlen), hfind]

/-- The kind fold keeps its initial value when no role key occurs. -/
theorem lastKindFrom_no_match :
    ∀ (es : List MetaEntry) (init : FieldKind),
      (∀ x ∈ es, ¬isRoleKey x.key = true) → lastKindFrom init es = init
  | [], _, _ => rfl
  | e :: rest, init, h => by
    have hpe : ¬isRoleKey e.key = true := h e (List.mem_cons_self _ _)
    have hcons : lastKindFrom init (e :: rest) =
        lastKindFrom (if isRoleKey e.key then roleKind e.key else init) rest := rfl
    rw [hcons, if_neg hpe]
    exact lastKindFrom_no_match rest init
      (fun x hx => h x (List.mem_cons_of_mem _ hx))

/-- With at most one role-keyed entry, the kind fold is the kind of the unique
role entry found, or the initial kind. -/
theorem lastKindFrom_eq_find :
    ∀ (es : List MetaEntry) (init : FieldKind),
      (es.filter (fun e => isRoleKey e.key)).length ≤ 1 →
      lastKindFrom init es =
        (match es.find? (fun e => isRoleKey e.key) with
         | some e => roleKind e.key
         | none => init)
  | [], _, _ => rfl
  | e :: rest, init, hlen => by
    have hcons : lastKindFrom init (e :: rest) =
        lastKindFrom (if isRoleKey e.key then roleKind e.key else init) rest := rfl
    by_cases hp : isRoleKey e.key = true
    · have hfe : (e :: rest).filter (fun e => isRoleKey e.key) =
          e :: rest.filter (fun e => isRoleKey e.key) := by
        simp [List.filter_cons, hp]
      have hrest : ∀ x ∈ rest, ¬isRoleKey x.key = true := by
        intro x hx hpx
        have hxmem : x ∈ rest.filter (fun e => isRoleKey e.key) :=
          List.mem_filter.mpr ⟨hx, hpx⟩
        have hpos : 0 < (rest.filter (fun e => isRoleKey e.key)).length :=
          List.length_pos_of_mem hxmem
        rw [hfe] at hlen
        simp only [List.length_cons] at hlen
        omega
      rw [hcons, if_pos hp, lastKindFrom_no_match rest _ hrest]
      have hfind : (e :: rest).find? (fun e => isRoleKey e.key) = some e := by
        simp [List.find?_cons, hp]
      rw [hfind]
    · have hfe : (e :: rest).filter (fun e => isRoleKey e.key) =
          rest.filter (fun e => isRoleKey e.key) := by
        simp [List.filter_cons, hp]
      have hfind : (e :: rest).find? (fun e => isRoleKey e.key) =
          rest.find? (fun e => isRoleKey e.key) := by
        simp [List.find?_cons, hp]
      rw [hcons, if_neg hp,
        lastKindFrom_eq_find rest init (by rw [hfe] at hlen; exact hlen), hfind]

/-- The rename fold keeps its initial value when no valued role key occurs. -/
theorem lastRenameFrom_no_match :
    ∀ (es : List MetaEntry) (init : Option String),
      (∀ x ∈ es, ¬(isRoleKey x.key && x.value.isSome) = true) →
      lastRenameFrom init es = init
  | [], _, _ => rfl
  | e :: rest, init, h => by
    have hpe : ¬(isRoleKey e.key && e.value.isSome) = true :=
      h e (List.mem_cons_self _ _)
    have hcons : lastRenameFrom init (e :: rest) =
        lastRenameFrom
          (if isRoleKey e.key && e.value.isSome then e.value else init) rest := rfl
    rw [hcons, if_neg hpe]
    exact lastRenameFrom_no_match rest init
      (fun x hx => h x (List.mem_cons_of_mem _ hx))

/-- With at most one valued role-keyed entry, the rename fold is the value of
the unique such entry found, or the initial value. -/
theorem lastRenameFrom_eq_find :
    ∀ (es : List MetaEntry) (init : Option String),
      (es.filter (fun e => isRoleKey e.key && e.value.isSome)).length ≤ 1 →
      lastRenameFrom init es =
        (match es.find? (fun e => isRoleKey e.key && e.value.isSome) with
         | some e => e.value
         | none => init)
  | [], _, _ => rfl
  | e :: rest, init, hlen => by
    have hcons : lastRenameFrom init (e :: rest) =
        lastRenameFrom
          (if isRoleKey e.key && e.value.isSome then e.value else init) rest := rfl
    by_cases hp : (isRoleKey e.key && e.value.isSome) = true
    · have hfe : (e :: rest).filter (fun e => isRoleKey e.key && e.value.isSome) =
          e :: rest.filter (fun e => isRoleKey e.key && e.value.isSome) := by
        simp only [List.filter_cons, hp, if_true]
      have hrest : ∀ x ∈ rest, ¬(isRoleKey x.key && x.value.isSome) = true := by
        intro x hx hpx
        have hxmem : x ∈ rest.filter (fun e => isRoleKey e.key && e.value.isSome) :=
          List.mem_filter.mpr ⟨hx, hpx⟩
        have hpos :
            0 < (rest.filter (fun e => isRoleKey e.key && e.value.isSome)).length :=
          List.length_pos_of_mem hxmem
        rw [hfe] at hlen
        simp only [List.length_cons] at hlen
        omega
      rw [hcons, if_pos hp, lastRenameFrom_no_match rest _ hrest]
      have hfind :
          (e :: rest).find? (fun e => isRoleKey e.key && e.value.isSome) =
            some e := by
        simp [List.find?_cons, hp]
      rw [hfind]
    · have hfe : (e :: rest).filter (fun e => isRoleKey e.key && e.value.isSome) =
          rest.filter (fun e => isRoleKey e.key && e.value.isSome) := by
        have hp' : (isRoleKey e.key && e.value.isSome) = false := by
          simpa using hp
        simp only [List.filter_cons, hp', Bool.false_eq_true, if_false]
      have hfind :
          (e :: rest).find? (fun e => isRoleKey e.key && e.value.isSome) =
            rest.find? (fun e => isRoleKey e.key && e.value.isSome) := by
        have hp' : (isRoleKey e.key && e.value.isSome) = false := by
          simpa using hp
        simp [List.find?_cons, hp']
      rw [hcons, if_neg hp,
        lastRenameFrom_eq_find rest init (by rw [hfe] at hlen; exact hlen), hfind]

/-- The canonical struct configuration is permutation invariant when keys are
pairwise distinct. -/
theorem structCanon_perm (es₁ es₂ : List MetaEntry) (hperm : es₁.Perm es₂)
    (hnd : (es₁.map MetaEntry.key).Nodup) :
    structCanonFrom .init es₁ = structCanonFrom .init es₂ := by
  have huni := filter_key_len_le_one es₁ hnd
  have huni₂ : ∀ k : String, (es₂.filter (fun e => e.key = k)).length ≤ 1 := by
    intro k
    rw [← (hperm.filter (fun e => e.key = k)).length_eq]
    exact huni k
  have hval : ∀ k : String, lastValueFrom k none es₁ = lastValueFrom k none es₂ := by
    intro k
    rw [lastValueFrom_eq_find k es₁ none (huni k),
      lastValueFrom_eq_find k es₂ none (huni₂ k),
      find?_congr_perm (fun e => decide (e.key = k)) es₁ es₂ hperm (huni k)]
  unfold structCanonFrom StructAttributes.init
  rw [any_congr_perm es₁ es₂ hperm (fun e => e.key = "into"),
    any_congr_perm es₁ es₂ hperm (fun e => e.key = "default"),
    hval "method", hval "path", hval "query_config", hval "response"]

/-- The canonical field configuration is permutation invariant when keys are
pairwise distinct and at most one role key occurs. -/
theorem fieldCanon_perm (es₁ es₂ : List MetaEntry) (hperm : es₁.Perm es₂)
    (hnd : (es₁.map MetaEntry.key).Nodup)
    (hrole : (es₁.filter (fun e => isRoleKey e.key)).length ≤ 1) :
    fieldCanonFrom .init es₁ = fieldCanonFrom .init es₂ := by
  have huni := filter_key_len_le_one es₁ hnd
  have huni₂ : ∀ k : String, (es₂.filter (fun e => e.key = k)).length ≤ 1 := by
    intro k
    rw [← (hperm.filter (fun e => e.key = k)).length_eq]
    exact huni k
  have hrole₂ : (es₂.filter (fun e => isRoleKey e.key)).length ≤ 1 := by
    rw [← (hperm.filter (fun e => isRoleKey e.key)).length_eq]
    exact hrole
  have hrv : (es₁.filter (fun e => isRoleKey e.key && e.value.isSome)).length ≤ 1 :=
    le_trans (filter_and_length_le es₁ _ _) hrole
  have hrv₂ : (es₂.filter (fun e => isRoleKey e.key && e.value.isSome)).length ≤ 1 :=
    le_trans (filter_and_length_le es₂ _ _) hrole₂
  unfold fieldCanonFrom FieldAttributes.init
  rw [any_congr_perm es₁ es₂ hperm (fun e => e.key = "into"),
    any_congr_perm es₁ es₂ hperm (fun e => e.key = "default"),
    lastValueFrom_eq_find "validate" es₁ none (huni "validate"),
    lastValueFrom_eq_find "validate" es₂ none (huni₂ "validate"),
    find?_congr_perm (fun e => decide (e.key = "validate")) es₁ es₂ hperm
      (huni "validate"),
    lastKindFrom_eq_find es₁ .unspecified hrole,
    lastKindFrom_eq_find es₂ .unspecified hrole₂,
    find?_congr_perm (fun e => isRoleKey e.key) es₁ es₂ hperm hrole,
    lastRenameFrom_eq_find es₁ none hrv,
    lastRenameFrom_eq_find es₂ none hrv₂,
    find?_congr_perm (fun e => isRoleKey e.key && e.value.isSome) es₁ es₂ hperm hrv]

/-! ### C8 -/

/-- C8 counterexample: `query` and `header` are distinct keys, yet permuting
them changes the parsed configuration — both write the single `kind` slot, and
the later entry wins. -/
theorem role_keys_break_order_independence :
    parse_field_attributes [⟨"query", none⟩, ⟨"header", none⟩] ≠
      parse_field_attributes [⟨"header", none⟩, ⟨"query", none⟩] := by decide

/-- C8 amended: parsing a struct-level attribute list of well-formed entries
with pairwise distinct keys is order-independent, and so is a field-level list
when at most one of the role keys `path`/`query`/`body`/`header` occurs —
several distinct role keys all write the single `kind` slot, so their relative
order matters.  When the same key appears more than once, the last-seen entry
wins: appending an entry for key `k` makes the configuration hold exactly that
entry's value in `k`'s slot. -/
theorem attribute_parsing_order_facts :
    (∀ es₁ es₂ : List MetaEntry, es₁.Perm es₂ →
      (∀ e ∈ es₁, structEntryWF e = true) →
      (es₁.map MetaEntry.key).Nodup →
      parse_struct_attributes es₁ = parse_struct_attributes es₂) ∧
    (∀ es₁ es₂ : List MetaEntry, es₁.Perm es₂ →
      (∀ e ∈ es₁, fieldEntryWF e = true) →
      (es₁.map MetaEntry.key).Nodup →
      (es₁.filter (fun e => isRoleKey e.key)).length ≤ 1 →
      parse_field_attributes es₁ = parse_field_attributes es₂) ∧
    (∀ (es : List MetaEntry) (k v : String),
      (∀ e ∈ es, structEntryWF e = true) →
      k ∈ ["method", "path", "response", "query_config"] →
      ∃ cfg, parse_struct_attributes (es ++ [⟨k, some v⟩]) = .ok cfg ∧
        structValueComp k cfg = some v) ∧
    (∀ (es : List MetaEntry) (v : String),
      (∀ e ∈ es, fieldEntryWF e = true) →
      ∃ cfg, parse_field_attributes (es ++ [⟨"header", some v⟩]) = .ok cfg ∧
        cfg.kind = .header ∧ cfg.rename = some v) := by
  refine ⟨fun es₁ es₂ hperm hwf hnd => ?_, fun es₁ es₂ hperm hwf hnd hrole => ?_,
    fun es k v hwf hk => ?_, fun es v hwf => ?_⟩
  · have hwf₂ : ∀ e ∈ es₂, structEntryWF e = true :=
      fun e he => hwf e (hperm.mem_iff.mpr he)
    unfold parse_struct_attributes
    rw [parseStructFrom_canon es₁ _ hwf, parseStructFrom_canon es₂ _ hwf₂,
      structCanon_perm es₁ es₂ hperm hnd]
  · have hwf₂ : ∀ e ∈ es₂, fieldEntryWF e = true :=
      fun e he => hwf e (hperm.mem_iff.mpr he)
    unfold parse_field_attributes
    rw [parseFieldFrom_canon es₁ _ hwf, parseFieldFrom_canon es₂ _ hwf₂,
      fieldCanon_perm es₁ es₂ hperm hnd hrole]
  · have hk' : k = "method" ∨ k = "path" ∨ k = "response" ∨ k = "query_config" := by
      simpa using hk
    have hwfe : structEntryWF ⟨k, some v⟩ = true := by
      rcases hk' with h | h | h | h <;> subst h <;> rfl
    have hwf' : ∀ e ∈ es ++ [⟨k, some v⟩], structEntryWF e = true := by
      intro e he
      rcases List.mem_append.mp he with h | h
      · exact hwf e h
      · simp only [List.mem_singleton] at h
        subst h
        exact hwfe
    refine ⟨structCanonFrom .init (es ++ [⟨k, some v⟩]), ?_, ?_⟩
    · exact parseStructFrom_canon _ _ hwf'
    · rcases hk' with h | h | h | h <;> subst h <;>
        simp [structValueComp, structCanonFrom, lastValueFrom, List.foldl_append]
  · have hwf' : ∀ e ∈ es ++ [⟨"header", some v⟩], fieldEntryWF e = true := by
      intro e he
      rcases List.mem_append.mp he with h | h
      · exact hwf e h
      · simp only [List.mem_singleton] at h
        subst h
        rfl
    refine ⟨fieldCanonFrom .init (es ++ [⟨"header", some v⟩]), ?_, ?_, ?_⟩
    · exact parseFieldFrom_canon _ _ hwf'
    · simp [fieldCanonFrom, lastKindFrom, List.foldl_append, isRoleKey, roleKind]
    · simp [fieldCanonFrom, lastRenameFrom, List.foldl_append, isRoleKey]

/-- C8 witness: swapping the distinct struct-level keys `method` and `into`
yields the same parsed configuration. -/
theorem attribute_parsing_order_witness :
    parse_struct_attributes [⟨"method", some "GET"⟩, ⟨"into", none⟩] =
      parse_struct_attributes [⟨"into", none⟩, ⟨"method", some "GET"⟩] :=
  attribute_parsing_order_facts.1 _ _ (List.Perm.swap _ _ _) (by decide) (by decide)

end DeriveRestApi
